import Mathlib

/-!
Verification development for the imperial_map backend core.

The Python sources are shallowly embedded:
- Python `dict` values become association lists `List (String × α)` with
  first-match lookup and in-place update (`dictGet` / `dictSet`), mirroring
  CPython's "update keeps position, new keys append" semantics.
- Python `set` values (the team → counties reverse index, a
  `defaultdict(set)`) become a total function `TeamId → Finset Fips`,
  mirroring `defaultdict`'s implicit-empty-set behaviour.
- Machine floats are modelled as exact rationals `ℚ`; `None` becomes
  `Option`; `raise` becomes an `Option`-valued result.
- Python truthiness of strings/ints (`or`, `if x:`) is embedded explicitly
  (`pyOrS`, `pyOrI`, `truthyS`).

Embedded modules: `backend/lib/game_engine.py`, `backend/apply_transfers.py`,
`backend/lib/territory.py`, `backend/lib/region_calculator.py`,
`backend/lib/leaderboard_calculator.py`.
-/


namespace ImperialMap

/-! ## Embedded definitions (data model and operations, from the Python sources) -/

abbrev Fips := String

abbrev TeamId := String

/-- Python-dict model: association list, first occurrence wins on lookup. -/
abbrev Dict (α : Type) := List (String × α)

/-- `d.get(k)`: first-match lookup. -/
def dictGet {α : Type} : Dict α → String → Option α
  | [], _ => none
  | p :: rest, k => if p.1 = k then some p.2 else dictGet rest k

/-- `k in d`. -/
def dictMem {α : Type} : Dict α → String → Bool
  | [], _ => false
  | p :: rest, k => p.1 = k || dictMem rest k

/-- Replace the value stored at key `k` (every occurrence; with distinct keys,
the one occurrence), keeping its position. -/
def dictSetIn {α : Type} : Dict α → String → α → Dict α
  | [], _, _ => []
  | p :: rest, k, v => if p.1 = k then (k, v) :: dictSetIn rest k v else p :: dictSetIn rest k v

/-- `d[k] = v`: update in place when the key is present, else append —
CPython insertion-order semantics. -/
def dictSet {α : Type} (m : Dict α) (k : String) (v : α) : Dict α :=
  if dictMem m k then dictSetIn m k v else m ++ [(k, v)]

/-- Key list of a dict. -/
def dictKeys {α : Type} (m : Dict α) : List String := m.map Prod.fst

/-- Ownership snapshot: FIPS → owning team id (a Python dict). -/
abbrev Own := Dict TeamId

/-- Team → set of owned FIPS codes. The Python side is a `defaultdict(set)`
(`build_team_reverse_index`); absent teams read as the empty set, which a
total function (defaulting to `[]`) models directly. Each Python set is
embedded as a duplicate-free list (a set's iteration order is unspecified,
so no claim depends on the order). -/
abbrev Idx := TeamId → List Fips

/-- Point update of the reverse index. -/
def idxUpdate (idx : Idx) (t : TeamId) (s : List Fips) : Idx :=
  fun u => if u = t then s else idx u

/-- Python `set.add`: no-op when the element is present. -/
def setAdd (s : List Fips) (f : Fips) : List Fips :=
  if f ∈ s then s else s ++ [f]

/-- Python `set.discard`: remove the element if present (the embedded lists
are duplicate-free, so removing every occurrence is the same operation). -/
def setDiscard (s : List Fips) (f : Fips) : List Fips :=
  s.filter (fun x => x ≠ f)

/-- `build_team_reverse_index(ownership)` (apply_transfers.py lines 55-59):
fold `mapping[team_id].add(fips)` over the ownership items. -/
def build_team_reverse_index (ownership : Own) : Idx :=
  ownership.foldl (fun idx p => idxUpdate idx p.2 (setAdd (idx p.2) p.1)) (fun _ => [])

/-- The set of regions a snapshot assigns to team `t`. -/
def ownedSet (own : Own) (t : TeamId) : Finset Fips :=
  ((own.filter (fun p => p.2 == t)).map Prod.fst).toFinset

/-- Python `a or b` for string-valued fields (`None`/`""` are falsy). -/
def pyOrS (a b : Option String) : Option String :=
  match a with
  | some s => if s = "" then b else some s
  | none => b

/-- Python `a or b` for integer-valued fields (`None`/`0` are falsy). -/
def pyOrI (a b : Option Int) : Option Int :=
  match a with
  | some v => if v = 0 then b else some v
  | none => b

/-- Python truthiness of an optional string. -/
def truthyS : Option String → Bool
  | some s => s ≠ ""
  | none => false

/-- Python `str.lower()`, embedded structurally over the character list
(statuses in the feed are ASCII). -/
def pyLower (s : String) : String := ⟨s.data.map Char.toLower⟩

/-- A game record as consumed by `process_game_result` (snake_case or
camelCase keys; an absent key is `none`). Scores are embedded as integers;
`completed` is the truthiness of the `completed` entry. -/
structure Game where
  id : Option Int := none
  status : Option String := none
  completed : Bool := false
  winner_id : Option String := none
  winnerId : Option String := none
  winner : Option String := none
  loser_id : Option String := none
  loserId : Option String := none
  loser : Option String := none
  home_score : Option Int := none
  homeScore : Option Int := none
  away_score : Option Int := none
  awayScore : Option Int := none
  home_team_id : Option String := none
  homeTeamId : Option String := none
  away_team_id : Option String := none
  awayTeamId : Option String := none
deriving DecidableEq, Repr

/-- One element of the `transfers` list built by `process_game_result`
(game_engine.py lines 76-86). `atTime` embeds the `'at'` key, the
`datetime.utcnow()` timestamp, threaded in as the parameter `now`. -/
structure Transfer where
  fips : Fips
  from_team_id : TeamId
  to_team_id : TeamId
  game_id : Option Int
  atTime : String
  reason : String
deriving DecidableEq, Repr

/-- The dict returned by `process_game_result` on acceptance. -/
structure GameResult where
  winner : TeamId
  loser : TeamId
  transfer_count : Nat
  transfers : List Transfer
deriving DecidableEq, Repr

/-- The completeness gate of `process_game_result` (game_engine.py lines
27-31): `if status and status not in {'final', 'completed'} and not
completed: return None`. It fires only when the normalized status is
non-empty. -/
def statusRejected (game : Game) : Bool :=
  let statusStr := pyLower (game.status.getD "")
  statusStr ≠ "" && statusStr ≠ "final" && statusStr ≠ "completed" && !game.completed

/-- Winner/loser determination of `process_game_result` (game_engine.py
lines 33-62): explicit winner/loser fields when both are truthy, else
derivation from scores; `none` when underivable (missing field after the
falsy-`or` chains, or tied scores). -/
def determineWL (game : Game) : Option (TeamId × TeamId) :=
  let winner0 := pyOrS (pyOrS game.winner_id game.winnerId) game.winner
  let loser0 := pyOrS (pyOrS game.loser_id game.loserId) game.loser
  if truthyS winner0 = false ∨ truthyS loser0 = false then
    -- Attempt to derive winner/loser from scores if provided
    let homeSc := pyOrI game.home_score game.homeScore
    let awaySc := pyOrI game.away_score game.awayScore
    let homeTm := pyOrS game.home_team_id game.homeTeamId
    let awayTm := pyOrS game.away_team_id game.awayTeamId
    match homeSc, awaySc, homeTm, awayTm with
    | some hs, some aws, some ht, some awt =>
      if hs = aws then none
      else if aws < hs then some (ht, awt) else some (awt, ht)
    | _, _, _, _ => none
  else
    some (winner0.getD "", loser0.getD "")

/-- `process_game_result(game, current_ownership, team_counties)`
(game_engine.py lines 8-93), embedded statement by statement via
`statusRejected` and `determineWL` above.
`now` stands for `datetime.utcnow().isoformat()`.
When the reverse index is supplied, `list(team_counties.get(loser, []))`
copies the loser's set into a list; the embedding reads the duplicate-free
list directly. -/
def process_game_result (game : Game) (current_ownership : Own)
    (team_counties : Option Idx) (now : String) : Option GameResult :=
  if statusRejected game then none
  else
    match determineWL game with
    | none => none
    | some (w, l) =>
      if w = l then none
      else
        let loser_counties : List Fips :=
          match team_counties with
          | some idx => idx l
          | none => (current_ownership.filter (fun p => p.2 == l)).map Prod.fst
        let transfers : List Transfer := loser_counties.map (fun f =>
          { fips := f
            from_team_id := l
            to_team_id := w
            game_id := game.id
            atTime := now
            reason := w ++ " defeated " ++ l ++ " (all-of-loser rule)" })
        some { winner := w, loser := l, transfer_count := transfers.length,
               transfers := transfers }

/-- Body of the per-transfer loop of `apply_transfers_for_week`
(apply_transfers.py lines 110-122). The loop also binds
`loser = transfer['from_team_id']`, which it never reads afterwards. -/
def applyTransfer (s : Own × Idx) (tr : Transfer) : Own × Idx :=
  let own := s.1
  let idx := s.2
  if dictGet own tr.fips = some tr.to_team_id then s
  else
    let prev := dictGet own tr.fips
    let idx1 : Idx :=
      match prev with
      | some p => if p ≠ "" then idxUpdate idx p (setDiscard (idx p) tr.fips) else idx
      | none => idx
    (dictSet own tr.fips tr.to_team_id,
     idxUpdate idx1 tr.to_team_id (setAdd (idx1 tr.to_team_id) tr.fips))

/-- The ledger record appended by `apply_transfers_for_week`
(apply_transfers.py lines 124-137). The `season`, `weekIndex`, `week` and
`seasonType` entries are copied verbatim from the week metadata and are
omitted here. -/
structure LedgerRecord where
  gameId : Option Int
  winnerId : TeamId
  loserId : TeamId
  transferCount : Nat
  fips : List Fips
  completedAt : String
deriving DecidableEq, Repr

/-- Mutable state of one `apply_transfers_for_week` run: the ownership dict,
the reverse index, the two counters and the ledger records accumulated. -/
structure WeekAcc where
  ownership : Own
  team_to_fips : Idx
  county_transfers : Nat
  processed_games : Nat
  transfer_records : List LedgerRecord

/-- One iteration of the `for game in games` loop of
`apply_transfers_for_week` (apply_transfers.py lines 92-137). -/
def applyGame (now : String) (acc : WeekAcc) (game : Game) : WeekAcc :=
  match process_game_result game acc.ownership (some acc.team_to_fips) now with
  | none => acc
  | some result =>
    let acc1 := { acc with processed_games := acc.processed_games + 1 }
    if result.transfer_count = 0 then acc1
    else
      let acc2 := { acc1 with county_transfers := acc1.county_transfers + result.transfer_count }
      let s' := result.transfers.foldl applyTransfer (acc2.ownership, acc2.team_to_fips)
      { acc2 with
        ownership := s'.1
        team_to_fips := s'.2
        transfer_records := acc2.transfer_records ++
          [{ gameId := game.id
             winnerId := result.winner
             loserId := result.loser
             transferCount := result.transfer_count
             fips := result.transfers.map (·.fips)
             completedAt := match result.transfers.head? with
               | some t => t.atTime
               | none => now }] }

/-- Initial loop state of an `apply_transfers_for_week` call. -/
def initWeekAcc (own : Own) (idx : Idx) : WeekAcc :=
  { ownership := own, team_to_fips := idx, county_transfers := 0,
    processed_games := 0, transfer_records := [] }

/-- The games loop of `apply_transfers_for_week` (apply_transfers.py
lines 92-144): fold `applyGame` over the week's contest feed. File-path
resolution and JSON loading (lines 70-86) are I/O collaborators outside the
embedding. -/
def apply_transfers_for_week (now : String) (own : Own) (idx : Idx)
    (games : List Game) : WeekAcc :=
  games.foldl (applyGame now) (initWeekAcc own idx)

/-- No snapshot value is the empty string. (An empty team id is falsy in
Python, so `if previous_owner:` would silently skip the reverse-index
discard for it.) -/
def OwnersNonempty (own : Own) : Prop := ∀ p ∈ own, p.2 ≠ ""

instance (own : Own) : Decidable (OwnersNonempty own) := by
  unfold OwnersNonempty; infer_instance

/-- Representation invariant of one engine state: distinct region keys,
reverse index the exact inverse of the snapshot, no falsy team ids. -/
structure GoodState (own : Own) (idx : Idx) : Prop where
  nodup : (dictKeys own).Nodup
  inv : ∀ t, (idx t).toFinset = ownedSet own t
  owners : OwnersNonempty own

/-- The team-id-bearing fields of a game are never the empty string (an
empty slug is never a real team; the Python code checks these fields only
against `None`). -/
def GameTeamsOK (g : Game) : Prop :=
  g.home_team_id ≠ some "" ∧ g.homeTeamId ≠ some "" ∧
  g.away_team_id ≠ some "" ∧ g.awayTeamId ≠ some ""

instance (g : Game) : Decidable (GameTeamsOK g) := by
  unfold GameTeamsOK; infer_instance

/-- Concrete inputs for the C1 witness (the repository's own unit-test
scenario from tests/test_game_engine.py). -/
def c1own : Own :=
  [("01001", "winner-team"), ("01003", "loser-team"), ("01005", "loser-team")]

def c1game : Game :=
  { id := some 123, winnerId := some "winner-team",
    loserId := some "loser-team", completed := true }

def c1res : GameResult :=
  { winner := "winner-team", loser := "loser-team", transfer_count := 2,
    transfers :=
      [{ fips := "01003", from_team_id := "loser-team",
         to_team_id := "winner-team", game_id := some 123, atTime := "t",
         reason := "winner-team defeated loser-team (all-of-loser rule)" },
       { fips := "01005", from_team_id := "loser-team",
         to_team_id := "winner-team", game_id := some 123, atTime := "t",
         reason := "winner-team defeated loser-team (all-of-loser rule)" }] }

/-- Game with no status marking at all, a false completed flag, and explicit
winner/loser fields. -/
def c2game : Game := { winner_id := some "alpha", loser_id := some "beta" }

/-- Snapshot for the C2 counterexample: one region owned by the loser. -/
def c2own : Own := [("01001", "beta")]

/-- Baseline for the C3 counterexample: three regions, three teams. -/
def c3own : Own := [("ca", "A"), ("cb", "B"), ("cc", "C")]

/-- Week feed: A beats B, then B beats C — the loser of the first game
regains territory in the second. -/
def c3games : List Game :=
  [{ completed := true, winner_id := some "A", loser_id := some "B" },
   { completed := true, winner_id := some "B", loser_id := some "C" }]

/-- First application of the week feed to the baseline. -/
def c3run1 : WeekAcc :=
  apply_transfers_for_week "t" c3own (build_team_reverse_index c3own) c3games

/-- Replay: the same feed applied to the snapshot and reverse index that
resulted from processing it. -/
def c3run2 : WeekAcc :=
  apply_transfers_for_week "t" c3run1.ownership c3run1.team_to_fips c3games

/-- A county record as consumed by `assign_initial_ownership`: `fips`,
`centroid_lat`, `centroid_lon`. Float coordinates are embedded as exact
rationals. -/
structure County where
  fips : String
  centroid_lat : ℚ
  centroid_lon : ℚ
deriving DecidableEq, Repr

/-- The module-level stadium table `TEAM_STADIUM_LOCATIONS` (territory.py
lines 9-30) in source order: (team id, lat, lon). -/
def TEAM_STADIUM_LOCATIONS : List (String × ℚ × ℚ) :=
  [("alabama", 33.2080, -87.5502),
   ("georgia", 33.9496, -83.3737),
   ("michigan", 42.2661, -83.7487),
   ("ohio-state", 40.0017, -83.0197),
   ("texas", 30.2833, -97.7333),
   ("oklahoma", 35.2058, -97.4426),
   ("clemson", 34.6774, -82.8364),
   ("notre-dame", 41.7001, -86.2379),
   ("usc", 34.0141, -118.2879),
   ("florida", 29.6499, -82.3487),
   ("lsu", 30.4118, -91.1871),
   ("wisconsin", 43.0642, -89.4012),
   ("penn-state", 40.8123, -77.8560),
   ("auburn", 32.6010, -85.4904),
   ("oregon", 44.0582, -123.0685),
   ("washington", 47.6508, -122.3048),
   ("miami", 25.7617, -80.1918),
   ("stanford", 37.4344, -122.1598),
   ("nebraska", 40.8136, -96.7026),
   ("tennessee", 35.9549, -83.9255)]

/-- Inner loop of `assign_initial_ownership` (territory.py lines 102-113):
running arg-min over the team table. `dist` stands for
`calculate_distance`, the haversine over floats (territory.py lines 33-49);
its transcendental float arithmetic has no exact embedding, and the
selection logic proved about below does not depend on its values, so it is
passed in abstractly. The Python accumulator starts at `float('inf')`, so
the first team always replaces it; `ℚ` has no infinity, so the empty
accumulator is an explicit `none`. -/
def nearest_team (dist : ℚ → ℚ → ℚ → ℚ → ℚ) (clat clon : ℚ)
    (teams : List (String × ℚ × ℚ)) : Option String :=
  (teams.foldl
    (fun acc t =>
      match acc with
      | none => some (t.1, dist clat clon t.2.1 t.2.2)
      | some (bid, bd) =>
        if dist clat clon t.2.1 t.2.2 < bd then
          some (t.1, dist clat clon t.2.1 t.2.2)
        else some (bid, bd))
    none).map Prod.fst

/-- `assign_initial_ownership(counties)` (territory.py lines 83-117), with
the module-level team table passed explicitly (spec §9 already requires the
embedded constant table to become an injected dataset). Builds the
`assignments` dict mapping each county's FIPS to its nearest team —
`None` when the team table is empty. -/
def assign_initial_ownership (dist : ℚ → ℚ → ℚ → ℚ → ℚ)
    (teams : List (String × ℚ × ℚ)) (counties : List County) :
    Dict (Option String) :=
  counties.foldl
    (fun assignments c =>
      dictSet assignments c.fips
        (nearest_team dist c.centroid_lat c.centroid_lon teams))
    []

/-- A concrete computable surrogate distance used only to witness the
arg-min theorem (the selection logic is distance-function-agnostic). -/
def sqDist (lat1 lon1 lat2 lon2 : ℚ) : ℚ :=
  (lat1 - lat2) * (lat1 - lat2) + (lon1 - lon2) * (lon1 - lon2)

/-- A county centred near Tuscaloosa for the C5 witness. -/
def c5county : County :=
  { fips := "01001", centroid_lat := 33, centroid_lon := -87 }

/-- A linear ring: list of `(lon, lat)` vertices (GeoJSON axis order,
exactly as destructured by `for lon, lat in ring`). -/
abbrev Ring := List (ℚ × ℚ)

/-- Polygon or multipolygon coordinate arrays as fed to
`calculate_centroid`. The Python function sniffs the nesting depth at run
time (`is_multipolygon`, territory.py lines 65-68); the embedding's
inductive type records the same distinction in the type. -/
inductive Geometry where
  | polygon : List Ring → Geometry
  | multipolygon : List (List Ring) → Geometry
deriving DecidableEq, Repr

/-- The list the outer loop iterates
(`polygons = coordinates if is_multipolygon(...) else [coordinates]`). -/
def Geometry.polygons : Geometry → List (List Ring)
  | .polygon rings => [rings]
  | .multipolygon ps => ps

/-- Every vertex across all rings, in iteration order. -/
def Geometry.points (g : Geometry) : List (ℚ × ℚ) :=
  g.polygons.flatten.flatten

/-- The loop accumulator of `calculate_centroid` (territory.py lines
57-75): `(total_lat, total_lon, point_count)` folded over every vertex of
every ring of every polygon. -/
def centroidAcc (g : Geometry) : ℚ × ℚ × ℕ :=
  g.polygons.foldl
    (fun acc polygon => polygon.foldl
      (fun acc ring => ring.foldl
        (fun acc p => (acc.1 + p.2, acc.2.1 + p.1, acc.2.2 + 1)) acc)
      acc)
    ((0 : ℚ), (0 : ℚ), (0 : ℕ))

/-- `calculate_centroid(coordinates)` (territory.py lines 52-80): the
accumulated totals divided by the point count; the `ValueError` raised on
zero points becomes `none`. Returns `(lat, lon)`. -/
def calculate_centroid (g : Geometry) : Option (ℚ × ℚ) :=
  if (centroidAcc g).2.2 = 0 then none
  else some ((centroidAcc g).1 / ((centroidAcc g).2.2 : ℚ),
             (centroidAcc g).2.1 / ((centroidAcc g).2.2 : ℚ))

/-- Team metadata consumed by `calculate_territory_logos`. -/
structure TeamMeta where
  id : String
  school : Option String := none
  name : Option String := none
  logoUrl : Option String := none
deriving DecidableEq, Repr

/-- A fixed baseline territory centroid record (an entry of
territory-centroids.json). -/
structure Centroid where
  teamId : String
  teamName : Option String := none
  latitude : ℚ
  longitude : ℚ
  region : Option String := none
  areaSqMi : ℚ := 0
deriving DecidableEq, Repr

/-- One logo marker produced by `calculate_territory_logos`. -/
structure Logo where
  territoryId : String
  baselineTeamId : String
  baselineTeamName : Option String
  latitude : ℚ
  longitude : ℚ
  region : Option String
  currentOwnerId : String
  currentOwnerName : Option String
  logoUrl : Option String
  countiesOwned : ℕ
  totalCounties : ℕ
  areaSqMi : ℚ
deriving DecidableEq, Repr

/-- `territory_counties` (region_calculator.py lines 33-35):
`setdefault(team_id, []).append(fips)` folded over the baseline items. -/
def territoryCounties (baseline : Own) : Dict (List Fips) :=
  baseline.foldl
    (fun m p =>
      match dictGet m p.2 with
      | some l => dictSet m p.2 (l ++ [p.1])
      | none => dictSet m p.2 [p.1])
    []

/-- Loop body of `owner_counts` (region_calculator.py lines 67-70): look
up the county's current owner and, when truthy, bump its tally
(`owner_counts[current_owner] = owner_counts.get(current_owner, 0) + 1`). -/
def ownerCountsStep (cur : Own) (m : Dict ℕ) (f : Fips) : Dict ℕ :=
  match dictGet cur f with
  | some owner =>
    if owner ≠ "" then
      match dictGet m owner with
      | some c => dictSet m owner (c + 1)
      | none => dictSet m owner 1
    else m
  | none => m

/-- `owner_counts` (region_calculator.py lines 66-70): count the current
owner of each of the cluster's counties; a county whose owner is missing
or falsy is skipped. -/
def ownerCounts (cur : Own) (fips_list : List Fips) : Dict ℕ :=
  fips_list.foldl (ownerCountsStep cur) []

/-- `max(owner_counts.items(), key=lambda x: x[1])` (region_calculator.py
line 77): Python's `max` keeps the first maximal element in iteration
order, replacing only on strictly greater. -/
def maxByCount : Dict ℕ → Option (String × ℕ)
  | [] => none
  | x :: xs => some (xs.foldl (fun b y => if y.2 > b.2 then y else b) x)

/-- `teams_by_id = {team['id']: team for team in teams}`
(region_calculator.py line 38). -/
def teamsById (teams : List TeamMeta) : Dict TeamMeta :=
  teams.foldl (fun m t => dictSet m t.id t) []

/-- Python `region_tag or 'main'`. -/
def regionOrMain : Option String → String
  | some s => if s = "" then "main" else s
  | none => "main"

/-- Loop body of `calculate_territory_logos` (region_calculator.py lines
42-93). The mainland/alaska `region_tag` filter (lines 51-60) returns
`baseline_counties` in all three of its branches and is embedded as the
identity it is. -/
def logoStep (territory_counties : Dict (List Fips))
    (teams_by_id : Dict TeamMeta) (cur : Own)
    (logos : List Logo) (centroid : Centroid) : List Logo :=
  let baseline_counties :=
    (dictGet territory_counties centroid.teamId).getD []
  if baseline_counties = [] then logos
  else
    let region_counties := baseline_counties
    if region_counties = [] then logos
    else
      let owner_counts := ownerCounts cur region_counties
      match maxByCount owner_counts with
      | none => logos
      | some ctrl =>
        let controlling_team := dictGet teams_by_id ctrl.1
        logos ++ [{
          territoryId :=
            centroid.teamId ++ "-" ++ regionOrMain centroid.region
          baselineTeamId := centroid.teamId
          baselineTeamName := centroid.teamName
          latitude := centroid.latitude
          longitude := centroid.longitude
          region := centroid.region
          currentOwnerId := ctrl.1
          currentOwnerName :=
            pyOrS (controlling_team.bind TeamMeta.school)
              (controlling_team.bind TeamMeta.name)
          logoUrl := controlling_team.bind TeamMeta.logoUrl
          countiesOwned := (dictGet owner_counts ctrl.1).getD 0
          totalCounties := region_counties.length
          areaSqMi := centroid.areaSqMi }]

/-- `calculate_territory_logos(baseline_ownership, current_ownership,
teams, baseline_centroids)` (region_calculator.py lines 10-95). -/
def calculate_territory_logos (baseline_ownership current_ownership : Own)
    (teams : List TeamMeta) (baseline_centroids : List Centroid) :
    List Logo :=
  baseline_centroids.foldl
    (logoStep (territoryCounties baseline_ownership) (teamsById teams)
      current_ownership)
    []

/-- Number of regions of `fl` that team `t` owns under `cur` (the
spec-side tally over a cluster's original membership). -/
def countOwned (cur : Own) (fl : List Fips) (t : TeamId) : ℕ :=
  (fl.filter (fun f => dictGet cur f == some t)).length

/-- Concrete inputs for the C6 witness: cluster "A" = {f1, f2}; under the
live snapshot C owns f1 and A owns f2, a 1-1 tie resolved to the first
maximal entry in iteration order (C). -/
def c6baseline : Own := [("f1", "A"), ("f2", "A"), ("f3", "B")]

def c6cur : Own := [("f1", "C"), ("f2", "A"), ("f3", "B")]

def c6teams : List TeamMeta :=
  [{ id := "A", school := some "A University" },
   { id := "C", school := some "C University", logoUrl := some "c.png" }]

def c6cents : List Centroid :=
  [{ teamId := "A", teamName := some "Team A", latitude := 10,
     longitude := 20 }]

/-- The logo marker the code produces for the scenario above. -/
def c6logo : Logo :=
  { territoryId := "A-main", baselineTeamId := "A",
    baselineTeamName := some "Team A", latitude := 10, longitude := 20,
    region := none, currentOwnerId := "C",
    currentOwnerName := some "C University", logoUrl := some "c.png",
    countiesOwned := 1, totalCounties := 2, areaSqMi := 0 }

/-- One county-stats.json entry: optional population and area. Values that
are absent (or non-numeric, which `_normalise_number` maps to `0.0` just
like absence) are `none`. -/
structure CountyStat where
  population : Option ℚ := none
  areaSqMi : Option ℚ := none
deriving DecidableEq, Repr

abbrev CountyStats := Dict CountyStat

/-- `_normalise_number` (leaderboard_calculator.py lines 24-32) on an
absent-or-numeric value. -/
def normaliseNumber : Option ℚ → ℚ
  | some v => v
  | none => 0

/-- The raw per-team accumulator
`{'counties': 0, 'population': 0, 'areaSqMi': 0.0}`. -/
structure RawMetrics where
  counties : ℕ
  population : ℚ
  areaSqMi : ℚ
deriving DecidableEq, Repr

def zeroMetrics : RawMetrics := { counties := 0, population := 0, areaSqMi := 0 }

/-- One `record['counties'] += 1; record['population'] += ...;
record['areaSqMi'] += ...` bump of a defaultdict slot. -/
def bumpMetrics (m : Dict RawMetrics) (team : String) (pop area : ℚ) :
    Dict RawMetrics :=
  let r := (dictGet m team).getD zeroMetrics
  dictSet m team
    { counties := r.counties + 1, population := r.population + pop,
      areaSqMi := r.areaSqMi + area }

/-- Inner loop body of `_collect_transfer_deltas` (leaderboard_calculator.py
lines 102-115): one county's population/area looked up and both the
winner's gained slot and the loser's lost slot bumped. -/
def deltaStepCounty (county_stats : CountyStats) (w l : String)
    (acc : Dict RawMetrics × Dict RawMetrics) (f : Fips) :
    Dict RawMetrics × Dict RawMetrics :=
  let county := (dictGet county_stats f).getD {}
  let population := normaliseNumber county.population
  let area := normaliseNumber county.areaSqMi
  (bumpMetrics acc.1 w population area, bumpMetrics acc.2 l population area)

/-- Outer loop body of `_collect_transfer_deltas` (lines 95-115): skip a
record with an empty FIPS list or falsy winner/loser ids, else fold the
county bump over its FIPS list. -/
def deltaStep (county_stats : CountyStats)
    (acc : Dict RawMetrics × Dict RawMetrics) (transfer : LedgerRecord) :
    Dict RawMetrics × Dict RawMetrics :=
  if transfer.fips = [] ∨ transfer.winnerId = "" ∨ transfer.loserId = ""
  then acc
  else transfer.fips.foldl
    (deltaStepCounty county_stats transfer.winnerId transfer.loserId) acc

/-- `_collect_transfer_deltas(transfers, county_stats)`
(leaderboard_calculator.py lines 88-117): the `(gained, lost)` per-team
tallies, aggregated strictly from the ledger records — gained keyed by
winner, lost keyed by loser. -/
def collect_transfer_deltas (transfers : List LedgerRecord)
    (county_stats : CountyStats) : Dict RawMetrics × Dict RawMetrics :=
  transfers.foldl (deltaStep county_stats) ([], [])

/-- Python 3 `round()` (banker's rounding, half to even) on an exact
rational. -/
def pyRound (q : ℚ) : ℤ :=
  if q - (⌊q⌋ : ℚ) < 1/2 then ⌊q⌋
  else if (1 : ℚ)/2 < q - (⌊q⌋ : ℚ) then ⌊q⌋ + 1
  else if ⌊q⌋ % 2 = 0 then ⌊q⌋ else ⌊q⌋ + 1

/-- `round(x, 2)`. -/
def pyRound2 (q : ℚ) : ℚ := (pyRound (q * 100) : ℚ) / 100

/-- The formatted metrics dict produced by `_format_metrics`
(leaderboard_calculator.py lines 120-125): `int` counties, `int(round(.))`
population, `round(., 2)` area. -/
structure FMetrics where
  counties : ℕ
  population : ℤ
  areaSqMi : ℚ
deriving DecidableEq, Repr

def format_metrics (raw : RawMetrics) : FMetrics :=
  { counties := raw.counties, population := pyRound raw.population,
    areaSqMi := pyRound2 raw.areaSqMi }

/-- Team metadata consumed by the leaderboard module. -/
structure LbTeam where
  id : Option String := none
  shortName : Option String := none
  name : Option String := none
  fullName : Option String := none
  conference : Option String := none
deriving DecidableEq, Repr

/-- `_build_team_lookup` (lines 48-55): id → team, skipping falsy ids. -/
def build_team_lookup (teams : List LbTeam) : Dict LbTeam :=
  teams.foldl
    (fun lookup team =>
      match team.id with
      | some i => if i ≠ "" then dictSet lookup i team else lookup
      | none => lookup)
    []

/-- `team_id.replace('-', ' ')`. -/
def pyReplaceDash (s : String) : String :=
  ⟨s.data.map (fun ch => if ch = '-' then ' ' else ch)⟩

/-- `str.title()`: first alphabetic character of each word uppercased, the
rest lowercased. -/
def titleMap : List Char → Bool → List Char
  | [], _ => []
  | ch :: rest, atStart =>
    (if atStart then ch.toUpper else ch.toLower) :: titleMap rest (¬ ch.isAlpha)

def pyTitle (s : String) : String := ⟨titleMap s.data true⟩

/-- `_display_name` (leaderboard_calculator.py lines 58-66). -/
def display_name (team : Option LbTeam) (team_id : String) : String :=
  match team with
  | some t =>
    (pyOrS (pyOrS (pyOrS t.shortName t.name) t.fullName)
      (some (pyTitle (pyReplaceDash team_id)))).getD ""
  | none => pyTitle (pyReplaceDash team_id)

/-- A leaderboard entry (lines 133-142). -/
structure Entry where
  teamId : String
  teamName : String
  shortName : Option String
  fullName : Option String
  conference : Option String
  metrics : FMetrics
deriving DecidableEq, Repr

/-- The entry `_build_entries` constructs for one `(team_id, metrics)`
item. -/
def mkEntry (team_lookup : Dict LbTeam) (p : String × RawMetrics) : Entry :=
  let team_meta := dictGet team_lookup p.1
  { teamId := p.1
    teamName := display_name team_meta p.1
    shortName := team_meta.bind LbTeam.shortName
    fullName := team_meta.bind LbTeam.fullName
    conference := team_meta.bind LbTeam.conference
    metrics := format_metrics p.2 }

/-- `_build_entries(team_totals, team_lookup)` (lines 128-143). -/
def build_entries (team_totals : Dict RawMetrics)
    (team_lookup : Dict LbTeam) : Dict Entry :=
  team_totals.foldl
    (fun entries p => dictSet entries p.1 (mkEntry team_lookup p))
    []

/-- `item['metrics'].get(metric, 0)` over the formatted metrics dict. -/
def metricVal (m : FMetrics) (metric : String) : ℚ :=
  if metric = "counties" then (m.counties : ℚ)
  else if metric = "population" then (m.population : ℚ)
  else if metric = "areaSqMi" then m.areaSqMi
  else 0

/-- The sort key tuple
`(metrics.get(metric, 0), metrics.get('population', 0),
metrics.get('counties', 0))` (lines 151-158). -/
def sortKey (metric : String) (e : Entry) : ℚ × ℚ × ℚ :=
  (metricVal e.metrics metric, (e.metrics.population : ℚ),
   (e.metrics.counties : ℚ))

/-- Descending lexicographic comparison used for `sorted(..., key,
reverse=True)`: `a` may precede `b` iff `key b ≤ key a` in the tuple
order. -/
def keyGE (x y : ℚ × ℚ × ℚ) : Prop :=
  y.1 < x.1 ∨ (y.1 = x.1 ∧
    (y.2.1 < x.2.1 ∨ (y.2.1 = x.2.1 ∧ y.2.2 ≤ x.2.2)))

instance (x y : ℚ × ℚ × ℚ) : Decidable (keyGE x y) := by
  unfold keyGE; infer_instance

/-- `TOP_ENTRIES` (line 16): `None`, i.e. every board includes all
entries. -/
def TOP_ENTRIES : Option ℕ := none

/-- `_sorted_board(entries, metric)` (lines 146-163): sort the entry dict's
values descending by the key tuple (a stable mergesort, like CPython's
`sorted`), then drop entries whose primary metric is not positive; with
`TOP_ENTRIES = None` no truncation happens. -/
def sorted_board (entries : Dict Entry) (metric : String) : List Entry :=
  let sorted_entries := (entries.map Prod.snd).mergeSort
    (fun a b => decide (keyGE (sortKey metric a) (sortKey metric b)))
  let filtered := sorted_entries.filter
    (fun e => metricVal e.metrics metric > 0)
  match TOP_ENTRIES with
  | none => filtered
  | some n => filtered.take n

/-- `_sorted_board_from_raw(raw_metrics, team_lookup, metric)` (lines
166-185): build entries from the raw tallies, then the same sort and
filter. -/
def sorted_board_from_raw (raw_metrics : Dict RawMetrics)
    (team_lookup : Dict LbTeam) (metric : String) : List Entry :=
  let entries := build_entries raw_metrics team_lookup
  let sorted_entries := (entries.map Prod.snd).mergeSort
    (fun a b => decide (keyGE (sortKey metric a) (sortKey metric b)))
  let filtered := sorted_entries.filter
    (fun e => metricVal e.metrics metric > 0)
  match TOP_ENTRIES with
  | none => filtered
  | some n => filtered.take n

/-- Total counties across a raw tally dict. -/
def sumCounties (m : Dict RawMetrics) : ℕ :=
  (m.map (fun p => p.2.counties)).sum

/-- The tri-part invariant threaded through `_collect_transfer_deltas`:
dict-shaped tallies and balanced total counties. -/
def DeltaInv (acc : Dict RawMetrics × Dict RawMetrics) : Prop :=
  (dictKeys acc.1).Nodup ∧ (dictKeys acc.2).Nodup ∧
  sumCounties acc.1 = sumCounties acc.2

/-! ## Theorems -/

theorem dictMem_iff {α : Type} (m : Dict α) (k : String) :
    dictMem m k = true ↔ k ∈ dictKeys m := by
  induction m with
  | nil => simp [dictMem, dictKeys]
  | cons p rest ih =>
    simp [dictMem, dictKeys, Bool.or_eq_true, ih]
    constructor
    · rintro (h | h)
      · exact Or.inl h.symm
      · exact Or.inr h
    · rintro (h | h)
      · exact Or.inl h.symm
      · exact Or.inr h

theorem dictGet_eq_none_of_not_mem {α : Type} {m : Dict α} {k : String}
    (h : dictMem m k = false) : dictGet m k = none := by
  induction m with
  | nil => rfl
  | cons p rest ih =>
    simp [dictMem, Bool.or_eq_false_iff] at h
    simp [dictGet, h.1, ih h.2]

theorem dictKeys_dictSetIn {α : Type} (m : Dict α) (k : String) (v : α) :
    dictKeys (dictSetIn m k v) = dictKeys m := by
  induction m with
  | nil => rfl
  | cons p rest ih =>
    by_cases h : p.1 = k
    · simp [dictSetIn, h, dictKeys] at ih ⊢
      exact ih
    · simp [dictSetIn, h, dictKeys] at ih ⊢
      exact ih

theorem dictKeys_dictSet_of_mem {α : Type} {m : Dict α} {k : String} (v : α)
    (h : dictMem m k = true) : dictKeys (dictSet m k v) = dictKeys m := by
  simp [dictSet, h, dictKeys_dictSetIn]

theorem dictGet_dictSetIn_self {α : Type} {m : Dict α} {k : String} (v : α)
    (h : dictMem m k = true) : dictGet (dictSetIn m k v) k = some v := by
  induction m with
  | nil => simp [dictMem] at h
  | cons p rest ih =>
    by_cases hp : p.1 = k
    · simp [dictSetIn, hp, dictGet]
    · have h' : dictMem rest k = true := by
        simpa [dictMem, hp] using h
      simp [dictSetIn, hp, dictGet, ih h']

theorem dictGet_dictSetIn_ne {α : Type} (m : Dict α) {k k' : String} (v : α)
    (h : k' ≠ k) : dictGet (dictSetIn m k v) k' = dictGet m k' := by
  induction m with
  | nil => rfl
  | cons p rest ih =>
    by_cases hp : p.1 = k
    · have hk : ¬ (k = k') := fun he => h he.symm
      simp [dictSetIn, hp, dictGet, hk, ih]
    · by_cases hpk : p.1 = k'
      · simp [dictSetIn, hp, dictGet, hpk, h]
      · simp [dictSetIn, hp, dictGet, hpk, ih]

theorem dictGet_append {α : Type} (m l : Dict α) (k : String) :
    dictGet (m ++ l) k =
      (match dictGet m k with
       | some v => some v
       | none => dictGet l k) := by
  induction m with
  | nil => simp [dictGet]
  | cons p rest ih =>
    by_cases hp : p.1 = k
    · simp [dictGet, hp]
    · simp [dictGet, hp, ih]

theorem dictGet_dictSet_self {α : Type} (m : Dict α) (k : String) (v : α) :
    dictGet (dictSet m k v) k = some v := by
  unfold dictSet
  by_cases h : dictMem m k
  · simp [h, dictGet_dictSetIn_self v h]
  · have hn : dictMem m k = false := by simpa using h
    simp [hn, dictGet_append, dictGet_eq_none_of_not_mem hn, dictGet]

theorem dictGet_dictSet_ne {α : Type} (m : Dict α) {k k' : String} (v : α)
    (h : k' ≠ k) : dictGet (dictSet m k v) k' = dictGet m k' := by
  unfold dictSet
  by_cases hm : dictMem m k
  · simp [hm, dictGet_dictSetIn_ne m v h]
  · simp [hm, dictGet_append]
    cases hg : dictGet m k' with
    | some w => simp
    | none => simp [dictGet, Ne.symm h]

theorem dictKeys_dictSet_of_not_mem {α : Type} {m : Dict α} {k : String} (v : α)
    (h : dictMem m k = false) : dictKeys (dictSet m k v) = dictKeys m ++ [k] := by
  simp [dictSet, h, dictKeys]

theorem mem_ownedSet_iff_mem {own : Own} {t : TeamId} {x : Fips} :
    x ∈ ownedSet own t ↔ (x, t) ∈ own := by
  simp only [ownedSet, List.mem_toFinset, List.mem_map, List.mem_filter]
  constructor
  · rintro ⟨⟨a, b⟩, ⟨hmem, hbt⟩, hax⟩
    have hb : b = t := by simpa using hbt
    simpa [hb] using hax ▸ (hb ▸ hmem : (a, t) ∈ own)
  · intro hmem
    exact ⟨(x, t), ⟨hmem, by simp⟩, rfl⟩

theorem dictGet_mem {α : Type} {own : Dict α} {x : String} {t : α}
    (h : dictGet own x = some t) : (x, t) ∈ own := by
  induction own with
  | nil => simp [dictGet] at h
  | cons p rest ih =>
    by_cases hp : p.1 = x
    · have h2 : p.2 = t := by simpa [dictGet, hp] using h
      have hpe : (x, t) = p := by
        obtain ⟨a, b⟩ := p
        simp only [Prod.mk.injEq]
        exact ⟨hp.symm, h2.symm⟩
      exact List.mem_cons.mpr (Or.inl hpe)
    · simp [dictGet, hp] at h
      exact List.mem_cons_of_mem _ (ih h)

theorem dictGet_eq_some_iff {α : Type} {own : Dict α} (h : (dictKeys own).Nodup)
    {x : String} {t : α} : dictGet own x = some t ↔ (x, t) ∈ own := by
  constructor
  · exact dictGet_mem
  · intro hmem
    induction own with
    | nil => simp at hmem
    | cons p rest ih =>
      have hcons : (p.1 :: dictKeys rest).Nodup := by simpa [dictKeys] using h
      have hnot : p.1 ∉ dictKeys rest := (List.nodup_cons.mp hcons).1
      have hnd1 : (dictKeys rest).Nodup := (List.nodup_cons.mp hcons).2
      rcases List.mem_cons.mp hmem with he | hr
      · simp [dictGet, ← he]
      · by_cases hp : p.1 = x
        · exfalso
          apply hnot
          rw [hp]
          exact List.mem_map.mpr ⟨(x, t), hr, rfl⟩
        · simp only [dictGet, hp, if_false]
          exact ih hnd1 hr

theorem mem_ownedSet {own : Own} (h : (dictKeys own).Nodup)
    {t : TeamId} {x : Fips} : x ∈ ownedSet own t ↔ dictGet own x = some t := by
  rw [mem_ownedSet_iff_mem, dictGet_eq_some_iff h]

theorem ownedSet_subset_keys {own : Own} {t : TeamId} {x : Fips}
    (h : x ∈ ownedSet own t) : x ∈ dictKeys own := by
  rcases mem_ownedSet_iff_mem.mp h with hmem
  exact List.mem_map.mpr ⟨(x, t), hmem, rfl⟩

theorem ownedSet_cons (p : Fips × TeamId) (rest : Own) (t : TeamId) :
    ownedSet (p :: rest) t =
      if p.2 = t then insert p.1 (ownedSet rest t) else ownedSet rest t := by
  by_cases hp : p.2 = t
  · have hb : (p.2 == t) = true := by simpa using hp
    simp [ownedSet, List.filter_cons, hb, hp, List.toFinset_cons]
  · have hb : (p.2 == t) = false := by simpa using hp
    simp [ownedSet, List.filter_cons, hb, hp]

theorem toFinset_setAdd (l : List Fips) (f : Fips) :
    (setAdd l f).toFinset = insert f l.toFinset := by
  unfold setAdd
  by_cases h : f ∈ l
  · simp [h, List.mem_toFinset.mpr h, Finset.insert_eq_self.mpr (List.mem_toFinset.mpr h)]
  · simp [h]
    ext x
    simp [or_comm]

theorem toFinset_setDiscard (l : List Fips) (f : Fips) :
    (setDiscard l f).toFinset = l.toFinset.erase f := by
  ext x
  simp [setDiscard, List.mem_filter, Finset.mem_erase, and_comm]

/-- `build_team_reverse_index` produces the exact inverse of the snapshot. -/
theorem build_team_reverse_index_inv (own : Own) (t : TeamId) :
    (build_team_reverse_index own t).toFinset = ownedSet own t := by
  suffices h : ∀ (l : Own) (idx : Idx) (t : TeamId),
      ((l.foldl (fun idx p => idxUpdate idx p.2 (setAdd (idx p.2) p.1)) idx) t).toFinset
        = (idx t).toFinset ∪ ownedSet l t by
    have := h own (fun _ => []) t
    simpa [build_team_reverse_index, ownedSet] using this
  intro l
  induction l with
  | nil => intro idx t; simp [ownedSet]
  | cons p rest ih =>
    intro idx t
    rw [List.foldl_cons, ih, ownedSet_cons]
    by_cases hp : p.2 = t
    · simp only [hp, if_true, idxUpdate, if_pos rfl, toFinset_setAdd]
      rw [Finset.insert_union, Finset.union_insert]
    · simp [idxUpdate, Ne.symm hp, hp]

theorem dictGet_applyTransfer (s : Own × Idx) (tr : Transfer) (x : Fips) :
    dictGet (applyTransfer s tr).1 x =
      if x = tr.fips then some tr.to_team_id else dictGet s.1 x := by
  unfold applyTransfer
  by_cases h : dictGet s.1 tr.fips = some tr.to_team_id
  · simp only [h, if_pos rfl]
    by_cases hx : x = tr.fips
    · simp [hx, h]
    · simp [hx]
  · simp only [h, if_neg, if_false]
    by_cases hx : x = tr.fips
    · simp only [hx, if_pos rfl]
      exact dictGet_dictSet_self _ _ _
    · simp only [hx, if_false]
      exact dictGet_dictSet_ne _ _ hx

theorem nodup_dictSet {α : Type} {m : Dict α} (k : String) (v : α)
    (h : (dictKeys m).Nodup) : (dictKeys (dictSet m k v)).Nodup := by
  by_cases hm : dictMem m k
  · rw [dictKeys_dictSet_of_mem v hm]; exact h
  · have hm' : dictMem m k = false := by simpa using hm
    rw [dictKeys_dictSet_of_not_mem v hm']
    have : k ∉ dictKeys m := fun hk => by
      rw [(dictMem_iff m k).mpr hk] at hm'; simp at hm'
    simpa [List.nodup_append] using ⟨h, this⟩

theorem nodup_applyTransfer {s : Own × Idx} (tr : Transfer)
    (h : (dictKeys s.1).Nodup) : (dictKeys (applyTransfer s tr).1).Nodup := by
  unfold applyTransfer
  by_cases hc : dictGet s.1 tr.fips = some tr.to_team_id
  · simpa [hc] using h
  · simpa [hc] using nodup_dictSet tr.fips tr.to_team_id h

theorem dictGet_foldl_applyTransfer (trs : List Transfer) (w : TeamId)
    (hto : ∀ tr ∈ trs, tr.to_team_id = w) (s : Own × Idx) (x : Fips) :
    dictGet (trs.foldl applyTransfer s).1 x =
      if x ∈ trs.map Transfer.fips then some w else dictGet s.1 x := by
  induction trs generalizing s with
  | nil => simp
  | cons tr rest ih =>
    have hw : tr.to_team_id = w := hto tr (List.mem_cons_self _ _)
    have hto' : ∀ t ∈ rest, t.to_team_id = w := fun t ht => hto t (List.mem_cons_of_mem _ ht)
    rw [List.foldl_cons, ih hto']
    by_cases hx : x ∈ rest.map Transfer.fips
    · simp [hx]
    · by_cases hxf : x = tr.fips
      · simp [hx, hxf, dictGet_applyTransfer, hw]
      · simp [hx, hxf, dictGet_applyTransfer]

theorem nodup_foldl_applyTransfer (trs : List Transfer) {s : Own × Idx}
    (h : (dictKeys s.1).Nodup) : (dictKeys (trs.foldl applyTransfer s).1).Nodup := by
  induction trs generalizing s with
  | nil => exact h
  | cons tr rest ih => exact ih (nodup_applyTransfer tr h)

/-- Inversion of an accepted `process_game_result` call (reverse-index
branch): the full shape of the returned plan. -/
theorem process_some_spec {g : Game} {own : Own} {idx : Idx} {now : String}
    {res : GameResult}
    (h : process_game_result g own (some idx) now = some res) :
    statusRejected g = false ∧
    determineWL g = some (res.winner, res.loser) ∧
    res.winner ≠ res.loser ∧
    res.transfers = (idx res.loser).map (fun f =>
      { fips := f, from_team_id := res.loser, to_team_id := res.winner,
        game_id := g.id, atTime := now,
        reason := res.winner ++ " defeated " ++ res.loser ++
          " (all-of-loser rule)" }) ∧
    res.transfer_count = res.transfers.length := by
  unfold process_game_result at h
  by_cases hs : statusRejected g
  · simp [hs] at h
  · simp only [hs, Bool.false_eq_true, if_false] at h
    cases hwl : determineWL g with
    | none => simp [hwl] at h
    | some wl =>
      obtain ⟨w, l⟩ := wl
      simp only [hwl] at h
      by_cases heq : w = l
      · simp [heq] at h
      · simp only [heq, if_false, Option.some.injEq] at h
        subst h
        simp [hs, heq]

theorem dictGet_isSome_of_mem {α : Type} {m : Dict α} {k : String}
    (h : k ∈ dictKeys m) : ∃ v, dictGet m k = some v := by
  induction m with
  | nil => simp [dictKeys] at h
  | cons p rest ih =>
    by_cases hp : p.1 = k
    · exact ⟨p.2, by simp [dictGet, hp]⟩
    · have : k ∈ dictKeys rest := by
        rcases by simpa [dictKeys] using h with he | hr
        · exact absurd he.symm hp
        · simpa [dictKeys] using hr
      obtain ⟨v, hv⟩ := ih this
      exact ⟨v, by simp [dictGet, hp, hv]⟩

theorem mem_dictSetIn {α : Type} {m : Dict α} {k : String} {v : α}
    {q : String × α} (h : q ∈ dictSetIn m k v) : q ∈ m ∨ q = (k, v) := by
  induction m with
  | nil => simp [dictSetIn] at h
  | cons p rest ih =>
    by_cases hp : p.1 = k
    · simp only [dictSetIn, hp, if_pos rfl] at h
      rcases List.mem_cons.mp h with he | hr
      · exact Or.inr he
      · rcases ih hr with h1 | h2
        · exact Or.inl (List.mem_cons_of_mem _ h1)
        · exact Or.inr h2
    · simp only [dictSetIn, hp, if_false] at h
      rcases List.mem_cons.mp h with he | hr
      · exact Or.inl (List.mem_cons.mpr (Or.inl he))
      · rcases ih hr with h1 | h2
        · exact Or.inl (List.mem_cons_of_mem _ h1)
        · exact Or.inr h2

theorem mem_dictSet {α : Type} {m : Dict α} {k : String} {v : α}
    {q : String × α} (h : q ∈ dictSet m k v) : q ∈ m ∨ q = (k, v) := by
  by_cases hm : dictMem m k
  · have h' : q ∈ dictSetIn m k v := by
      unfold dictSet at h
      rwa [if_pos hm] at h
    exact mem_dictSetIn h'
  · have h' : q ∈ m ++ [(k, v)] := by
      unfold dictSet at h
      rwa [if_neg hm] at h
    rcases List.mem_append.mp h' with h1 | h2
    · exact Or.inl h1
    · exact Or.inr (by simpa using h2)

theorem applyTransfer_eq {own : Own} {idx : Idx} {tr : Transfer} {v : TeamId}
    (hv : dictGet own tr.fips = some v) (hvw : v ≠ tr.to_team_id)
    (hvne : v ≠ "") :
    applyTransfer (own, idx) tr =
      (dictSet own tr.fips tr.to_team_id,
       idxUpdate (idxUpdate idx v (setDiscard (idx v) tr.fips)) tr.to_team_id
         (setAdd (idxUpdate idx v (setDiscard (idx v) tr.fips) tr.to_team_id)
           tr.fips)) := by
  have hskip : ¬ dictGet own tr.fips = some tr.to_team_id := by
    rw [hv]; simp [hvw]
  simp [applyTransfer, hv, hvne, hvw]

theorem applyTransfer_preserves {own : Own} {idx : Idx} (tr : Transfer)
    (hG : GoodState own idx) (hw : tr.to_team_id ≠ "")
    (hmem : tr.fips ∈ dictKeys own) :
    GoodState (applyTransfer (own, idx) tr).1 (applyTransfer (own, idx) tr).2 ∧
    dictKeys (applyTransfer (own, idx) tr).1 = dictKeys own := by
  obtain ⟨v, hv⟩ := dictGet_isSome_of_mem hmem
  by_cases hskip : dictGet own tr.fips = some tr.to_team_id
  · refine ⟨?_, ?_⟩
    · simpa [applyTransfer, hskip] using hG
    · simp [applyTransfer, hskip]
  · have hvw : v ≠ tr.to_team_id := fun he => hskip (he ▸ hv)
    have hvne : v ≠ "" := hG.owners _ (dictGet_mem hv)
    rw [applyTransfer_eq hv hvw hvne]
    have hmemb : dictMem own tr.fips = true := (dictMem_iff _ _).mpr hmem
    have hkeys : dictKeys (dictSet own tr.fips tr.to_team_id) = dictKeys own :=
      dictKeys_dictSet_of_mem _ hmemb
    have hnd' : (dictKeys (dictSet own tr.fips tr.to_team_id)).Nodup :=
      nodup_dictSet _ _ hG.nodup
    have hget : ∀ x, dictGet (dictSet own tr.fips tr.to_team_id) x =
        if x = tr.fips then some tr.to_team_id else dictGet own x := by
      intro x
      by_cases hx : x = tr.fips
      · simp [hx, dictGet_dictSet_self]
      · simp [hx, dictGet_dictSet_ne _ _ hx]
    refine ⟨⟨hnd', ?_, ?_⟩, hkeys⟩
    · intro t
      dsimp only
      have hwv : ¬ (tr.to_team_id = v) := fun he => hvw he.symm
      by_cases htw : t = tr.to_team_id
      · subst htw
        have h1 : idxUpdate (idxUpdate idx v (setDiscard (idx v) tr.fips))
            tr.to_team_id
            (setAdd (idxUpdate idx v (setDiscard (idx v) tr.fips)
              tr.to_team_id) tr.fips) tr.to_team_id
            = setAdd (idx tr.to_team_id) tr.fips := by
          simp [idxUpdate, hwv]
        rw [h1, toFinset_setAdd, hG.inv]
        ext x
        rw [Finset.mem_insert, mem_ownedSet hnd', hget x, mem_ownedSet hG.nodup]
        by_cases hx : x = tr.fips
        · simp [hx]
        · simp [hx]
      · by_cases htv : t = v
        · subst htv
          have h1 : idxUpdate (idxUpdate idx t (setDiscard (idx t) tr.fips))
              tr.to_team_id
              (setAdd (idxUpdate idx t (setDiscard (idx t) tr.fips)
                tr.to_team_id) tr.fips) t
              = setDiscard (idx t) tr.fips := by
            simp [idxUpdate, htw]
          rw [h1, toFinset_setDiscard, hG.inv]
          ext x
          rw [Finset.mem_erase, mem_ownedSet hnd', hget x, mem_ownedSet hG.nodup]
          by_cases hx : x = tr.fips
          · simp [hx, Option.some.injEq, Ne.symm htw]
          · simp [hx]
        · have h1 : idxUpdate (idxUpdate idx v (setDiscard (idx v) tr.fips))
              tr.to_team_id
              (setAdd (idxUpdate idx v (setDiscard (idx v) tr.fips)
                tr.to_team_id) tr.fips) t
              = idx t := by
            simp [idxUpdate, htw, htv]
          rw [h1, hG.inv]
          ext x
          rw [mem_ownedSet hnd', hget x, mem_ownedSet hG.nodup]
          by_cases hx : x = tr.fips
          · simp [hx, hv, Option.some.injEq, Ne.symm htv, Ne.symm htw]
          · simp [hx]
    · intro p hp
      rcases mem_dictSet hp with h1 | h2
      · exact hG.owners p h1
      · rw [h2]; exact hw

theorem pyOrS_some {a b : Option String} {s : String}
    (h : pyOrS a b = some s) : (a = some s ∧ s ≠ "") ∨ b = some s := by
  cases a with
  | none => exact Or.inr h
  | some x =>
    have h' : (if x = "" then b else some x) = some s := h
    by_cases hx : x = ""
    · rw [if_pos hx] at h'
      exact Or.inr h'
    · rw [if_neg hx] at h'
      have hxs := Option.some.inj h'
      subst hxs
      exact Or.inl ⟨rfl, hx⟩

theorem truthyS_getD {a : Option String} (h : truthyS a = true) :
    a.getD "" ≠ "" := by
  cases a with
  | none => simp [truthyS] at h
  | some s => simpa [truthyS] using h

theorem determineWL_nonempty {g : Game} {w l : TeamId}
    (hg : GameTeamsOK g) (h : determineWL g = some (w, l)) :
    w ≠ "" ∧ l ≠ "" := by
  unfold determineWL at h
  by_cases hc : truthyS (pyOrS (pyOrS g.winner_id g.winnerId) g.winner) = false ∨
      truthyS (pyOrS (pyOrS g.loser_id g.loserId) g.loser) = false
  · rw [if_pos hc] at h
    cases hhs : pyOrI g.home_score g.homeScore with
    | none => simp [hhs] at h
    | some hsv =>
    cases has : pyOrI g.away_score g.awayScore with
    | none => simp [hhs, has] at h
    | some asv =>
    cases hht : pyOrS g.home_team_id g.homeTeamId with
    | none => simp [hhs, has, hht] at h
    | some htv =>
    cases hat : pyOrS g.away_team_id g.awayTeamId with
    | none => simp [hhs, has, hht, hat] at h
    | some atv =>
    have hhtv : htv ≠ "" := by
      rcases pyOrS_some hht with ⟨_, hne⟩ | hb
      · exact hne
      · intro he
        rw [he] at hb
        exact hg.2.1 hb
    have hatv : atv ≠ "" := by
      rcases pyOrS_some hat with ⟨_, hne⟩ | hb
      · exact hne
      · intro he
        rw [he] at hb
        exact hg.2.2.2 hb
    simp only [hhs, has, hht, hat] at h
    by_cases heq : hsv = asv
    · simp [heq] at h
    · simp only [heq, if_false] at h
      by_cases hlt : asv < hsv
      · simp only [hlt, if_true, Option.some.injEq, Prod.mk.injEq] at h
        obtain ⟨h1, h2⟩ := h
        subst h1; subst h2
        exact ⟨hhtv, hatv⟩
      · simp only [hlt, if_false, Option.some.injEq, Prod.mk.injEq] at h
        obtain ⟨h1, h2⟩ := h
        subst h1; subst h2
        exact ⟨hatv, hhtv⟩
  · rw [if_neg hc] at h
    simp only [Option.some.injEq, Prod.mk.injEq] at h
    obtain ⟨h1, h2⟩ := h
    push_neg at hc
    obtain ⟨hw', hl'⟩ := hc
    have hwt : truthyS (pyOrS (pyOrS g.winner_id g.winnerId) g.winner) = true := by
      cases hb : truthyS (pyOrS (pyOrS g.winner_id g.winnerId) g.winner) with
      | false => exact absurd hb hw'
      | true => rfl
    have hlt : truthyS (pyOrS (pyOrS g.loser_id g.loserId) g.loser) = true := by
      cases hb : truthyS (pyOrS (pyOrS g.loser_id g.loserId) g.loser) with
      | false => exact absurd hb hl'
      | true => rfl
    rw [← h1, ← h2]
    exact ⟨truthyS_getD hwt, truthyS_getD hlt⟩

/-- Every transfer of an accepted plan targets the result's winner. -/
theorem transfers_to_winner {g : Game} {own : Own} {idx : Idx} {now : String}
    {res : GameResult}
    (h : process_game_result g own (some idx) now = some res) :
    ∀ tr ∈ res.transfers, tr.to_team_id = res.winner := by
  obtain ⟨_, _, _, htr, _⟩ := process_some_spec h
  intro tr htm
  rw [htr] at htm
  obtain ⟨f, _, rfl⟩ := List.mem_map.mp htm
  rfl

/-- Every transfer of an accepted plan names a region listed for the loser
in the reverse index. -/
theorem transfers_fips_mem {g : Game} {own : Own} {idx : Idx} {now : String}
    {res : GameResult}
    (h : process_game_result g own (some idx) now = some res) :
    ∀ tr ∈ res.transfers, tr.fips ∈ idx res.loser := by
  obtain ⟨_, _, _, htr, _⟩ := process_some_spec h
  intro tr htm
  rw [htr] at htm
  obtain ⟨f, hf, rfl⟩ := List.mem_map.mp htm
  exact hf

theorem foldl_applyTransfer_preserves (trs : List Transfer) {own : Own}
    {idx : Idx} (hG : GoodState own idx)
    (hw : ∀ tr ∈ trs, tr.to_team_id ≠ "")
    (hmem : ∀ tr ∈ trs, tr.fips ∈ dictKeys own) :
    GoodState (trs.foldl applyTransfer (own, idx)).1
      (trs.foldl applyTransfer (own, idx)).2 ∧
    dictKeys (trs.foldl applyTransfer (own, idx)).1 = dictKeys own := by
  induction trs generalizing own idx with
  | nil => exact ⟨hG, rfl⟩
  | cons tr rest ih =>
    obtain ⟨hG1, hk1⟩ := applyTransfer_preserves tr hG
      (hw tr (List.mem_cons_self _ _)) (hmem tr (List.mem_cons_self _ _))
    have hres := ih hG1
      (fun t ht => hw t (List.mem_cons_of_mem _ ht))
      (fun t ht => by rw [hk1]; exact hmem t (List.mem_cons_of_mem _ ht))
    exact ⟨hres.1, hres.2.trans hk1⟩

theorem applyGame_preserves (now : String) (acc : WeekAcc) (g : Game)
    (hG : GoodState acc.ownership acc.team_to_fips) (hg : GameTeamsOK g) :
    GoodState (applyGame now acc g).ownership
      (applyGame now acc g).team_to_fips ∧
    dictKeys (applyGame now acc g).ownership = dictKeys acc.ownership := by
  cases hp : process_game_result g acc.ownership (some acc.team_to_fips) now with
  | none =>
    constructor
    · simpa [applyGame, hp] using hG
    · simp [applyGame, hp]
  | some res =>
    obtain ⟨hs, hwl, hne, htr, hcnt⟩ := process_some_spec hp
    obtain ⟨hwne, hlne⟩ := determineWL_nonempty hg hwl
    by_cases hz : res.transfer_count = 0
    · constructor
      · simpa [applyGame, hp, hz] using hG
      · simp [applyGame, hp, hz]
    · have hwa : ∀ tr ∈ res.transfers, tr.to_team_id ≠ "" := by
        intro tr htm
        rw [transfers_to_winner hp tr htm]
        exact hwne
      have hfips : ∀ tr ∈ res.transfers, tr.fips ∈ dictKeys acc.ownership := by
        intro tr htm
        have h1 : tr.fips ∈ (acc.team_to_fips res.loser).toFinset :=
          List.mem_toFinset.mpr (transfers_fips_mem hp tr htm)
        rw [hG.inv] at h1
        exact ownedSet_subset_keys h1
      obtain ⟨hG', hk'⟩ := foldl_applyTransfer_preserves res.transfers hG hwa hfips
      constructor
      · simpa [applyGame, hp, hz] using hG'
      · simpa [applyGame, hp, hz] using hk'

theorem foldl_applyGame_preserves (now : String) (games : List Game)
    (acc : WeekAcc) (hG : GoodState acc.ownership acc.team_to_fips)
    (hgs : ∀ g ∈ games, GameTeamsOK g) :
    GoodState (games.foldl (applyGame now) acc).ownership
      (games.foldl (applyGame now) acc).team_to_fips ∧
    dictKeys (games.foldl (applyGame now) acc).ownership
      = dictKeys acc.ownership := by
  induction games generalizing acc with
  | nil => exact ⟨hG, rfl⟩
  | cons g rest ih =>
    obtain ⟨hG1, hk1⟩ := applyGame_preserves now acc g hG
      (hgs g (List.mem_cons_self _ _))
    obtain ⟨hG2, hk2⟩ := ih (applyGame now acc g) hG1
      (fun x hx => hgs x (List.mem_cons_of_mem _ hx))
    exact ⟨hG2, hk2.trans hk1⟩

/-- The per-plan FIPS list of an accepted result is the loser's
reverse-index entry. -/
theorem transfers_map_fips {g : Game} {own : Own} {idx : Idx} {now : String}
    {res : GameResult}
    (h : process_game_result g own (some idx) now = some res) :
    res.transfers.map Transfer.fips = idx res.loser := by
  obtain ⟨_, _, _, htr, _⟩ := process_some_spec h
  rw [htr, List.map_map]
  exact List.map_id _

/-- C1: for every accepted contest result (against a snapshot with distinct
region keys and its exact-inverse reverse index), the transferred set is
exactly the loser's owned set at the instant the result is applied, and
after the caller's per-transfer apply loop the winner's owned set is its
prior set union the transferred set while the loser's owned set is its
prior set minus the transferred set. -/
theorem accepted_result_transfers_all_of_loser
    (own : Own) (idx : Idx) (g : Game) (now : String) (res : GameResult)
    (hnd : (dictKeys own).Nodup)
    (hinv : ∀ t, (idx t).toFinset = ownedSet own t)
    (h : process_game_result g own (some idx) now = some res) :
    (res.transfers.map Transfer.fips).toFinset = ownedSet own res.loser ∧
    ownedSet (res.transfers.foldl applyTransfer (own, idx)).1 res.winner
      = ownedSet own res.winner ∪ (res.transfers.map Transfer.fips).toFinset ∧
    ownedSet (res.transfers.foldl applyTransfer (own, idx)).1 res.loser
      = ownedSet own res.loser \ (res.transfers.map Transfer.fips).toFinset := by
  obtain ⟨hs, hwl, hne, htr, hcnt⟩ := process_some_spec h
  have hfips : res.transfers.map Transfer.fips = idx res.loser :=
    transfers_map_fips h
  have hT : (res.transfers.map Transfer.fips).toFinset = ownedSet own res.loser := by
    rw [hfips, hinv]
  have hto : ∀ tr ∈ res.transfers, tr.to_team_id = res.winner :=
    transfers_to_winner h
  have hget := dictGet_foldl_applyTransfer res.transfers res.winner hto (own, idx)
  have hnd' : (dictKeys (res.transfers.foldl applyTransfer (own, idx)).1).Nodup :=
    nodup_foldl_applyTransfer _ hnd
  refine ⟨hT, ?_, ?_⟩
  · ext x
    rw [Finset.mem_union, mem_ownedSet hnd', hget x, List.mem_toFinset,
      mem_ownedSet hnd]
    by_cases hx : x ∈ res.transfers.map Transfer.fips
    · simp [hx]
    · simp [hx]
  · ext x
    rw [Finset.mem_sdiff, mem_ownedSet hnd', hget x, List.mem_toFinset,
      mem_ownedSet hnd]
    by_cases hx : x ∈ res.transfers.map Transfer.fips
    · simp [hx, hne]
    · simp [hx]

theorem accepted_result_transfers_all_of_loser_witness :
    (c1res.transfers.map Transfer.fips).toFinset = ownedSet c1own c1res.loser ∧
    ownedSet (c1res.transfers.foldl applyTransfer
        (c1own, build_team_reverse_index c1own)).1 c1res.winner
      = ownedSet c1own c1res.winner ∪ (c1res.transfers.map Transfer.fips).toFinset ∧
    ownedSet (c1res.transfers.foldl applyTransfer
        (c1own, build_team_reverse_index c1own)).1 c1res.loser
      = ownedSet c1own c1res.loser \ (c1res.transfers.map Transfer.fips).toFinset :=
  accepted_result_transfers_all_of_loser c1own (build_team_reverse_index c1own)
    c1game "t" c1res (by decide) (build_team_reverse_index_inv c1own) (by decide)

/-- C10: `process_game_result` only computes a transfer plan — it never
touches the snapshot or the reverse index. Inside the weekly loop, the
state after a game step is exactly the caller's per-transfer apply loop run
over the returned plan; in particular a rejected result leaves the state
exactly unchanged. (The embedding of `process_game_result` is a pure
function because the Python body only reads its arguments: `.get` lookups,
a `list(...)` copy and a comprehension over `.items()`.) -/
theorem process_game_result_pure_plan (now : String) (acc : WeekAcc) (g : Game) :
    ((applyGame now acc g).ownership, (applyGame now acc g).team_to_fips) =
      (match process_game_result g acc.ownership (some acc.team_to_fips) now with
       | none => (acc.ownership, acc.team_to_fips)
       | some res => res.transfers.foldl applyTransfer
           (acc.ownership, acc.team_to_fips)) := by
  cases hp : process_game_result g acc.ownership (some acc.team_to_fips) now with
  | none => simp [applyGame, hp]
  | some res =>
    obtain ⟨_, _, _, _, hcnt⟩ := process_some_spec hp
    by_cases hz : res.transfer_count = 0
    · have hnil : res.transfers = [] := by
        rw [hcnt] at hz
        exact List.eq_nil_of_length_eq_zero hz
      simp [applyGame, hp, hz, hnil]
    · simp [applyGame, hp, hz]

/-- C2 counterexample: a result that is **not marked complete** (its
normalized status is neither `final` nor `completed`, and its completed
flag is falsy — here both fields are simply absent) is **not** rejected:
`process_game_result` returns a plan, and applying the game moves the
loser's region. The completeness gate (game_engine.py line 30) fires only
when a non-empty status string is present. -/
theorem reject_unmarked_complete_counterexample :
    (¬ (pyLower (c2game.status.getD "") = "final" ∨
        pyLower (c2game.status.getD "") = "completed" ∨
        c2game.completed = true)) ∧
    process_game_result c2game c2own none "t" ≠ none ∧
    (applyGame "t" (initWeekAcc c2own (build_team_reverse_index c2own))
        c2game).ownership ≠ c2own := by
  refine ⟨by decide, by decide, by decide⟩

/-- C2 as amended: a result is rejected — `process_game_result` returns
`none`, for any snapshot, reverse index and timestamp — exactly when its
status field is a non-empty string other than `final`/`completed` and its
completed flag is falsy, or its winner/loser cannot be determined
(`determineWL` yields nothing), or the determined winner equals the
determined loser. A result carrying no status marking is *not* rejected on
completeness grounds even when its completed flag is false. Any rejected
result leaves the weekly loop state (snapshot, reverse index, counters and
ledger) exactly unchanged. -/
theorem rejection_characterization (g : Game) (own : Own) (tc : Option Idx)
    (now now2 : String) (acc : WeekAcc) :
    (process_game_result g own tc now = none ↔
      ((pyLower (g.status.getD "") ≠ "" ∧
        pyLower (g.status.getD "") ≠ "final" ∧
        pyLower (g.status.getD "") ≠ "completed" ∧
        g.completed = false)
       ∨ determineWL g = none
       ∨ ∃ w, determineWL g = some (w, w))) ∧
    (process_game_result g acc.ownership (some acc.team_to_fips) now2 = none →
      applyGame now2 acc g = acc) := by
  constructor
  · have hstat : statusRejected g = true ↔
        (pyLower (g.status.getD "") ≠ "" ∧
         pyLower (g.status.getD "") ≠ "final" ∧
         pyLower (g.status.getD "") ≠ "completed" ∧
         g.completed = false) := by
      unfold statusRejected
      simp [Bool.and_eq_true, Bool.not_eq_true', and_assoc]
    by_cases hs : statusRejected g
    · have hpn : process_game_result g own tc now = none := by
        simp [process_game_result, hs]
      exact iff_of_true hpn (Or.inl (hstat.mp hs))
    · have hs' : ¬ (pyLower (g.status.getD "") ≠ "" ∧
          pyLower (g.status.getD "") ≠ "final" ∧
          pyLower (g.status.getD "") ≠ "completed" ∧
          g.completed = false) := fun hc => hs (hstat.mpr hc)
      have hs2 : statusRejected g = false := by simpa using hs
      cases hwl : determineWL g with
      | none =>
        have hpn : process_game_result g own tc now = none := by
          simp [process_game_result, hs2, hwl]
        exact iff_of_true hpn (Or.inr (Or.inl rfl))
      | some wl =>
        obtain ⟨w, l⟩ := wl
        by_cases heq : w = l
        · subst heq
          have hpn : process_game_result g own tc now = none := by
            simp [process_game_result, hs2, hwl]
          exact iff_of_true hpn (Or.inr (Or.inr ⟨w, rfl⟩))
        · have hps : process_game_result g own tc now ≠ none := by
            simp [process_game_result, hs2, hwl, heq]
          constructor
          · intro hc
            exact absurd hc hps
          · rintro (hc | hc | ⟨w2, hc⟩)
            · exact absurd hc hs'
            · exact absurd hc (by simp)
            · have h12 := Prod.mk.inj (Option.some.inj hc)
              exact absurd (h12.1.trans h12.2.symm) heq
  · intro hnone
    simp [applyGame, hnone]

theorem rejection_characterization_witness :
    (process_game_result { status := some "scheduled" } [] none "t" = none ↔
      ((pyLower (({ status := some "scheduled" } : Game).status.getD "") ≠ "" ∧
        pyLower (({ status := some "scheduled" } : Game).status.getD "") ≠ "final" ∧
        pyLower (({ status := some "scheduled" } : Game).status.getD "") ≠ "completed" ∧
        ({ status := some "scheduled" } : Game).completed = false)
       ∨ determineWL { status := some "scheduled" } = none
       ∨ ∃ w, determineWL { status := some "scheduled" } = some (w, w))) ∧
    applyGame "t" (initWeekAcc [] (build_team_reverse_index []))
        { status := some "scheduled" }
      = initWeekAcc [] (build_team_reverse_index []) :=
  ⟨(rejection_characterization { status := some "scheduled" } [] none "t" "t"
      (initWeekAcc [] (build_team_reverse_index []))).1,
   (rejection_characterization { status := some "scheduled" } [] none "t" "t"
      (initWeekAcc [] (build_team_reverse_index []))).2 (by decide)⟩

/-- C3 counterexample: replaying an already-processed week's feed is *not*
idempotent. After the feed `[A beats B, B beats C]`, B owns C's old region
`"cc"`; on replay, the game `A beats B` moves `"cc"` from B to A (one more
region transferred). The per-region guard (apply_transfers.py line 114)
checks the current owner against the *winner*, not against the expected
loser. -/
theorem replay_feed_counterexample :
    dictGet c3run1.ownership "cc" = some "B" ∧
    dictGet c3run2.ownership "cc" = some "A" ∧
    c3run2.county_transfers = 1 := by
  refine ⟨by decide, by decide, by decide⟩

/-- Helper: a rejected result stays rejected against any other state. -/
theorem process_none_independent {g : Game} {own own2 : Own}
    {tc tc2 : Option Idx} {now now2 : String}
    (h : process_game_result g own tc now = none) :
    process_game_result g own2 tc2 now2 = none := by
  unfold process_game_result at h ⊢
  by_cases hs : statusRejected g
  · simp [hs]
  · simp only [hs, Bool.false_eq_true, if_false] at h ⊢
    cases hwl : determineWL g with
    | none => simp
    | some wl =>
      obtain ⟨w, l⟩ := wl
      simp only [hwl] at h ⊢
      by_cases heq : w = l
      · simp [heq]
      · simp [heq] at h

/-- Helper: when the loser's reverse-index entry is empty, applying the
game leaves the snapshot and the transfer counter untouched. -/
theorem applyGame_of_loser_empty (now : String) (acc : WeekAcc) {g : Game}
    {w l : TeamId} (hs : statusRejected g = false)
    (hwl : determineWL g = some (w, l)) (hne : w ≠ l)
    (hidx : acc.team_to_fips l = []) :
    (applyGame now acc g).ownership = acc.ownership ∧
    (applyGame now acc g).county_transfers = acc.county_transfers := by
  have hp : process_game_result g acc.ownership (some acc.team_to_fips) now
      = some { winner := w, loser := l, transfer_count := 0, transfers := [] } := by
    simp [process_game_result, hs, hwl, hne, hidx]
  constructor
  · simp [applyGame, hp]
  · simp [applyGame, hp]

/-- C3 as amended: replay idempotence holds per result, not per feed.
Re-applying a single already-applied result transfers nothing (its loser
then owns no regions), so its snapshot is unchanged and the replay counts
zero transferred regions. For a multi-result feed this can fail, because
the per-region guard compares the current owner with the winner rather
than with the expected loser: a result whose loser regained regions later
in the same week moves those regions again on replay (see the
counterexample). -/
theorem replay_single_result_idempotent (own : Own) (idx : Idx) (g : Game)
    (now now2 : String)
    (hnd : (dictKeys own).Nodup)
    (hinv : ∀ t, (idx t).toFinset = ownedSet own t)
    (howners : OwnersNonempty own)
    (hg : GameTeamsOK g) :
    (applyGame now2 (initWeekAcc
        (applyGame now (initWeekAcc own idx) g).ownership
        (applyGame now (initWeekAcc own idx) g).team_to_fips) g).ownership
      = (applyGame now (initWeekAcc own idx) g).ownership ∧
    (applyGame now2 (initWeekAcc
        (applyGame now (initWeekAcc own idx) g).ownership
        (applyGame now (initWeekAcc own idx) g).team_to_fips) g).county_transfers
      = 0 := by
  have hG0 : GoodState (initWeekAcc own idx).ownership
      (initWeekAcc own idx).team_to_fips := ⟨hnd, hinv, howners⟩
  obtain ⟨hG1, hk1⟩ := applyGame_preserves now (initWeekAcc own idx) g hG0 hg
  cases hp : process_game_result g own (some idx) now with
  | none =>
    have hacc1 : applyGame now (initWeekAcc own idx) g = initWeekAcc own idx := by
      simp [applyGame, initWeekAcc, hp]
    rw [hacc1]
    have hp2 : process_game_result g own (some idx) now2 = none :=
      process_none_independent hp
    have : applyGame now2 (initWeekAcc own idx) g = initWeekAcc own idx := by
      simp [applyGame, initWeekAcc, hp2]
    rw [show initWeekAcc (initWeekAcc own idx).ownership
        (initWeekAcc own idx).team_to_fips = initWeekAcc own idx from rfl, this]
    exact ⟨rfl, rfl⟩
  | some res =>
    obtain ⟨hs, hwl, hne, htr, hcnt⟩ := process_some_spec hp
    have hempty : (applyGame now (initWeekAcc own idx) g).team_to_fips res.loser
        = [] := by
      have hinv1 := hG1.inv res.loser
      have howned : ownedSet (applyGame now (initWeekAcc own idx) g).ownership
          res.loser = ∅ := by
        by_cases hz : res.transfer_count = 0
        · have hnil : res.transfers = [] := by
            rw [hcnt] at hz
            exact List.eq_nil_of_length_eq_zero hz
          have hidxnil : idx res.loser = [] := by
            have := transfers_map_fips hp
            rw [hnil] at this
            exact this.symm
          have hsame : (applyGame now (initWeekAcc own idx) g).ownership = own := by
            simp [applyGame, initWeekAcc, hp, hz]
          rw [hsame]
          rw [← hinv, hidxnil]
          rfl
        · have hown1 : (applyGame now (initWeekAcc own idx) g).ownership
              = (res.transfers.foldl applyTransfer (own, idx)).1 := by
            simp [applyGame, initWeekAcc, hp, hz]
          rw [hown1]
          have hnd' : (dictKeys (res.transfers.foldl applyTransfer (own, idx)).1).Nodup :=
            nodup_foldl_applyTransfer _ hnd
          have hget := dictGet_foldl_applyTransfer res.transfers res.winner
            (transfers_to_winner hp) (own, idx)
          ext x
          simp only [Finset.not_mem_empty, iff_false]
          intro hx
          have hx' := (mem_ownedSet hnd').mp hx
          rw [hget x] at hx'
          by_cases hxm : x ∈ res.transfers.map Transfer.fips
          · rw [if_pos hxm] at hx'
            exact hne (Option.some.inj hx')
          · rw [if_neg hxm] at hx'
            have : x ∈ ownedSet own res.loser := (mem_ownedSet hnd).mpr hx'
            rw [← hinv, ← transfers_map_fips hp] at this
            exact hxm (List.mem_toFinset.mp this)
      rw [howned] at hinv1
      cases hl : (applyGame now (initWeekAcc own idx) g).team_to_fips res.loser with
      | nil => rfl
      | cons a as =>
        exfalso
        rw [hl] at hinv1
        have : a ∈ (a :: as).toFinset := by simp
        rw [hinv1] at this
        exact Finset.not_mem_empty a this
    obtain ⟨h1, h2⟩ := applyGame_of_loser_empty now2
      (initWeekAcc (applyGame now (initWeekAcc own idx) g).ownership
        (applyGame now (initWeekAcc own idx) g).team_to_fips)
      hs hwl hne hempty
    exact ⟨h1, h2⟩

theorem replay_single_result_idempotent_witness :
    (applyGame "t2" (initWeekAcc
        (applyGame "t" (initWeekAcc c1own (build_team_reverse_index c1own))
          c1game).ownership
        (applyGame "t" (initWeekAcc c1own (build_team_reverse_index c1own))
          c1game).team_to_fips) c1game).ownership
      = (applyGame "t" (initWeekAcc c1own (build_team_reverse_index c1own))
          c1game).ownership ∧
    (applyGame "t2" (initWeekAcc
        (applyGame "t" (initWeekAcc c1own (build_team_reverse_index c1own))
          c1game).ownership
        (applyGame "t" (initWeekAcc c1own (build_team_reverse_index c1own))
          c1game).team_to_fips) c1game).county_transfers = 0 :=
  replay_single_result_idempotent c1own (build_team_reverse_index c1own)
    c1game "t" "t2" (by decide) (build_team_reverse_index_inv c1own)
    (by decide) (by decide)

/-- C4: starting from a baseline snapshot with distinct keys and non-empty
team ids, after any prefix of the week's feed (each game with non-empty
team-id fields) the snapshot still maps exactly the baseline's region-id
set — same keys, still duplicate-free, so every region has exactly one
owner — and the reverse index is the exact inverse of the snapshot. -/
theorem snapshot_chain_invariants (baseline : Own) (games : List Game)
    (now : String) (n : ℕ)
    (hnd : (dictKeys baseline).Nodup)
    (howners : OwnersNonempty baseline)
    (hgs : ∀ g ∈ games, GameTeamsOK g) :
    dictKeys (apply_transfers_for_week now baseline
        (build_team_reverse_index baseline) (games.take n)).ownership
      = dictKeys baseline ∧
    (dictKeys (apply_transfers_for_week now baseline
        (build_team_reverse_index baseline) (games.take n)).ownership).Nodup ∧
    ∀ t, ((apply_transfers_for_week now baseline
        (build_team_reverse_index baseline) (games.take n)).team_to_fips t).toFinset
      = ownedSet (apply_transfers_for_week now baseline
          (build_team_reverse_index baseline) (games.take n)).ownership t := by
  have hG0 : GoodState (initWeekAcc baseline
      (build_team_reverse_index baseline)).ownership
      (initWeekAcc baseline (build_team_reverse_index baseline)).team_to_fips :=
    ⟨hnd, build_team_reverse_index_inv baseline, howners⟩
  have hgs' : ∀ g ∈ games.take n, GameTeamsOK g := fun g hg =>
    hgs g (List.take_subset n games hg)
  obtain ⟨hG, hk⟩ := foldl_applyGame_preserves now (games.take n)
    (initWeekAcc baseline (build_team_reverse_index baseline)) hG0 hgs'
  have hk2 : dictKeys (apply_transfers_for_week now baseline
      (build_team_reverse_index baseline) (games.take n)).ownership
      = dictKeys baseline := hk
  exact ⟨hk2, by rw [hk2]; exact hnd, hG.inv⟩

theorem snapshot_chain_invariants_witness :
    dictKeys (apply_transfers_for_week "t" c3own
        (build_team_reverse_index c3own) (c3games.take 2)).ownership
      = dictKeys c3own ∧
    ((apply_transfers_for_week "t" c3own
        (build_team_reverse_index c3own) (c3games.take 2)).team_to_fips "B").toFinset
      = ownedSet (apply_transfers_for_week "t" c3own
          (build_team_reverse_index c3own) (c3games.take 2)).ownership "B" :=
  ⟨(snapshot_chain_invariants c3own c3games "t" 2 (by decide) (by decide)
      (by decide)).1,
   (snapshot_chain_invariants c3own c3games "t" 2 (by decide) (by decide)
      (by decide)).2.2 "B"⟩

/-- Behaviour of the arg-min accumulator fold from a `some` start. -/
theorem nearest_team_foldl_spec (dist : ℚ → ℚ → ℚ → ℚ → ℚ) (clat clon : ℚ)
    (l : List (String × ℚ × ℚ)) (bid : String) (bd : ℚ) :
    ∃ bid2 bd2,
      l.foldl
        (fun acc t =>
          match acc with
          | none => some (t.1, dist clat clon t.2.1 t.2.2)
          | some (bid, bd) =>
            if dist clat clon t.2.1 t.2.2 < bd then
              some (t.1, dist clat clon t.2.1 t.2.2)
            else some (bid, bd))
        (some (bid, bd)) = some (bid2, bd2) ∧
      ((bid2 = bid ∧ bd2 = bd) ∨
        ∃ t ∈ l, bid2 = t.1 ∧ bd2 = dist clat clon t.2.1 t.2.2) ∧
      bd2 ≤ bd ∧
      ∀ t ∈ l, bd2 ≤ dist clat clon t.2.1 t.2.2 := by
  induction l generalizing bid bd with
  | nil => exact ⟨bid, bd, rfl, Or.inl ⟨rfl, rfl⟩, le_refl bd, by simp⟩
  | cons t ts ih =>
    by_cases hlt : dist clat clon t.2.1 t.2.2 < bd
    · obtain ⟨bid2, bd2, heq, hprov, hle, hall⟩ :=
        ih t.1 (dist clat clon t.2.1 t.2.2)
      refine ⟨bid2, bd2, ?_, ?_, ?_, ?_⟩
      · rw [List.foldl_cons]
        dsimp only
        rw [if_pos hlt]
        exact heq
      · rcases hprov with ⟨h1, h2⟩ | ⟨u, hu, h1, h2⟩
        · exact Or.inr ⟨t, List.mem_cons_self _ _, h1, h2⟩
        · exact Or.inr ⟨u, List.mem_cons_of_mem _ hu, h1, h2⟩
      · exact le_trans hle (le_of_lt hlt)
      · intro u hu
        rcases List.mem_cons.mp hu with rfl | hmem
        · exact hle
        · exact hall u hmem
    · obtain ⟨bid2, bd2, heq, hprov, hle, hall⟩ := ih bid bd
      refine ⟨bid2, bd2, ?_, ?_, hle, ?_⟩
      · rw [List.foldl_cons]
        dsimp only
        rw [if_neg hlt]
        exact heq
      · rcases hprov with ⟨h1, h2⟩ | ⟨u, hu, h1, h2⟩
        · exact Or.inl ⟨h1, h2⟩
        · exact Or.inr ⟨u, List.mem_cons_of_mem _ hu, h1, h2⟩
      · intro u hu
        rcases List.mem_cons.mp hu with rfl | hmem
        · exact le_trans hle (le_of_not_lt hlt)
        · exact hall u hmem

/-- For a non-empty team table, `nearest_team` picks a team of the table
whose distance is minimal. -/
theorem nearest_team_spec (dist : ℚ → ℚ → ℚ → ℚ → ℚ) (clat clon : ℚ)
    (teams : List (String × ℚ × ℚ)) (hne : teams ≠ []) :
    ∃ best ∈ teams, nearest_team dist clat clon teams = some best.1 ∧
      ∀ t ∈ teams, dist clat clon best.2.1 best.2.2
        ≤ dist clat clon t.2.1 t.2.2 := by
  cases teams with
  | nil => exact absurd rfl hne
  | cons t0 ts =>
    obtain ⟨bid2, bd2, heq, hprov, hle, hall⟩ :=
      nearest_team_foldl_spec dist clat clon ts t0.1
        (dist clat clon t0.2.1 t0.2.2)
    have hres : nearest_team dist clat clon (t0 :: ts) = some bid2 := by
      unfold nearest_team
      rw [List.foldl_cons]
      dsimp only
      rw [heq]
      rfl
    rcases hprov with ⟨h1, h2⟩ | ⟨u, hu, h1, h2⟩
    · refine ⟨t0, List.mem_cons_self _ _, by rw [hres, h1], ?_⟩
      intro u hu
      rcases List.mem_cons.mp hu with rfl | hmem
      · exact le_refl _
      · have := hall u hmem
        rw [h2] at this
        exact this
    · refine ⟨u, List.mem_cons_of_mem _ hu, by rw [hres, h1], ?_⟩
      intro u2 hu2
      rcases List.mem_cons.mp hu2 with rfl | hmem
      · rw [← h2]
        exact hle
      · rw [← h2]
        exact hall u2 hmem

/-- Folding `dictSet` over counties whose keys avoid `k` never touches
key `k`. -/
theorem assign_foldl_frozen (dist : ℚ → ℚ → ℚ → ℚ → ℚ)
    (teams : List (String × ℚ × ℚ)) (cs : List County)
    (m : Dict (Option String)) (k : String)
    (hk : ∀ c ∈ cs, c.fips ≠ k) :
    dictGet (cs.foldl
      (fun assignments c =>
        dictSet assignments c.fips
          (nearest_team dist c.centroid_lat c.centroid_lon teams)) m) k
      = dictGet m k := by
  induction cs generalizing m with
  | nil => rfl
  | cons c cs2 ih =>
    rw [List.foldl_cons, ih _ (fun c2 h2 => hk c2 (List.mem_cons_of_mem _ h2))]
    exact dictGet_dictSet_ne _ _ (fun he => hk c (List.mem_cons_self _ _) he.symm)

/-- Keys of the assignment fold: previous keys followed by the county FIPS
codes in input order. -/
theorem assign_foldl_keys (dist : ℚ → ℚ → ℚ → ℚ → ℚ)
    (teams : List (String × ℚ × ℚ)) (cs : List County)
    (m : Dict (Option String))
    (hdisj : ∀ c ∈ cs, c.fips ∉ dictKeys m)
    (hnd : (cs.map County.fips).Nodup) :
    dictKeys (cs.foldl
      (fun assignments c =>
        dictSet assignments c.fips
          (nearest_team dist c.centroid_lat c.centroid_lon teams)) m)
      = dictKeys m ++ cs.map County.fips := by
  induction cs generalizing m with
  | nil => simp
  | cons c cs2 ih =>
    have hmem : dictMem m c.fips = false := by
      cases hb : dictMem m c.fips with
      | false => rfl
      | true =>
        exact absurd ((dictMem_iff _ _).mp hb)
          (hdisj c (List.mem_cons_self _ _))
    have hk1 : dictKeys (dictSet m c.fips
        (nearest_team dist c.centroid_lat c.centroid_lon teams))
        = dictKeys m ++ [c.fips] := dictKeys_dictSet_of_not_mem _ hmem
    have hnd2 : (cs2.map County.fips).Nodup := (List.nodup_cons.mp hnd).2
    have hni : c.fips ∉ cs2.map County.fips := (List.nodup_cons.mp hnd).1
    have hdisj2 : ∀ c2 ∈ cs2, c2.fips ∉ dictKeys (dictSet m c.fips
        (nearest_team dist c.centroid_lat c.centroid_lon teams)) := by
      intro c2 h2
      rw [hk1]
      intro hin
      rcases List.mem_append.mp hin with ha | hb
      · exact hdisj c2 (List.mem_cons_of_mem _ h2) ha
      · have : c2.fips = c.fips := by simpa using hb
        exact hni (this ▸ List.mem_map.mpr ⟨c2, h2, rfl⟩)
    rw [List.foldl_cons, ih _ hdisj2 hnd2, hk1]
    simp

/-- Value stored by the assignment fold for each input county. -/
theorem assign_foldl_get (dist : ℚ → ℚ → ℚ → ℚ → ℚ)
    (teams : List (String × ℚ × ℚ)) (cs : List County) :
    ∀ (m : Dict (Option String)), (cs.map County.fips).Nodup →
    ∀ c ∈ cs,
      dictGet (cs.foldl
        (fun assignments c =>
          dictSet assignments c.fips
            (nearest_team dist c.centroid_lat c.centroid_lon teams)) m) c.fips
        = some (nearest_team dist c.centroid_lat c.centroid_lon teams) := by
  induction cs with
  | nil =>
    intro m _ c hc
    simp at hc
  | cons c0 cs2 ih =>
    intro m hnd c hc
    have hnd2 : (cs2.map County.fips).Nodup := (List.nodup_cons.mp hnd).2
    have hni : c0.fips ∉ cs2.map County.fips := (List.nodup_cons.mp hnd).1
    rcases List.mem_cons.mp hc with rfl | hmem
    · rw [List.foldl_cons, assign_foldl_frozen dist teams cs2 _ c.fips
        (fun c2 h2 he => hni (he ▸ List.mem_map.mpr ⟨c2, h2, rfl⟩))]
      exact dictGet_dictSet_self _ _ _
    · rw [List.foldl_cons]
      exact ih _ hnd2 c hmem

/-- C5 counterexample: with an empty team set `assign_initial_ownership`
does **not** fail — the loop's `nearest_team` stays `None` and every input
region is assigned `None` (no actual team). The Python function raises
nothing (territory.py line 115 stores `nearest_team` unconditionally). -/
theorem empty_team_set_counterexample :
    assign_initial_ownership (fun _ _ _ _ => 0) []
      [{ fips := "01001", centroid_lat := 0, centroid_lon := 0 }]
      = [("01001", none)] := rfl

/-- C5 as amended: for a non-empty team table (and distinct input FIPS
codes) the output covers every input region exactly once, each mapped to
an actual team at arg-min distance from the region's centroid; for an
empty team table the function does not fail but maps every region to no
team (see the counterexample). `dist` abstracts the float haversine
`calculate_distance`. -/
theorem assign_initial_ownership_argmin (dist : ℚ → ℚ → ℚ → ℚ → ℚ)
    (teams : List (String × ℚ × ℚ)) (counties : List County)
    (hne : teams ≠ [])
    (hnd : (counties.map County.fips).Nodup) :
    dictKeys (assign_initial_ownership dist teams counties)
      = counties.map County.fips ∧
    ∀ c ∈ counties, ∃ best ∈ teams,
      dictGet (assign_initial_ownership dist teams counties) c.fips
        = some (some best.1) ∧
      ∀ t ∈ teams, dist c.centroid_lat c.centroid_lon best.2.1 best.2.2
        ≤ dist c.centroid_lat c.centroid_lon t.2.1 t.2.2 := by
  constructor
  · have h := assign_foldl_keys dist teams counties [] (by simp [dictKeys]) hnd
    unfold assign_initial_ownership
    simpa [dictKeys] using h
  · intro c hc
    obtain ⟨best, hbm, hbr, hbmin⟩ :=
      nearest_team_spec dist c.centroid_lat c.centroid_lon teams hne
    refine ⟨best, hbm, ?_, hbmin⟩
    have hget := assign_foldl_get dist teams counties [] hnd c hc
    unfold assign_initial_ownership
    rw [hget, hbr]

theorem assign_initial_ownership_argmin_witness :
    dictKeys (assign_initial_ownership sqDist TEAM_STADIUM_LOCATIONS [c5county])
      = [c5county].map County.fips ∧
    ∃ best ∈ TEAM_STADIUM_LOCATIONS,
      dictGet (assign_initial_ownership sqDist TEAM_STADIUM_LOCATIONS
          [c5county]) c5county.fips
        = some (some best.1) ∧
      ∀ t ∈ TEAM_STADIUM_LOCATIONS,
        sqDist c5county.centroid_lat c5county.centroid_lon best.2.1 best.2.2
          ≤ sqDist c5county.centroid_lat c5county.centroid_lon t.2.1 t.2.2 :=
  ⟨(assign_initial_ownership_argmin sqDist TEAM_STADIUM_LOCATIONS [c5county]
      (by decide) (by decide)).1,
   (assign_initial_ownership_argmin sqDist TEAM_STADIUM_LOCATIONS [c5county]
      (by decide) (by decide)).2 c5county (List.mem_cons_self _ _)⟩

theorem foldl_foldl_join {α β : Type} (f : β → α → β) (L : List (List α))
    (b : β) : L.foldl (fun acc l => l.foldl f acc) b = L.flatten.foldl f b := by
  induction L generalizing b with
  | nil => rfl
  | cons l ls ih =>
    rw [List.foldl_cons, ih, List.flatten_cons, List.foldl_append]

theorem centroid_acc_spec (pts : List (ℚ × ℚ)) (a : ℚ × ℚ × ℕ) :
    pts.foldl (fun acc p => (acc.1 + p.2, acc.2.1 + p.1, acc.2.2 + 1)) a
      = (a.1 + (pts.map Prod.snd).sum, a.2.1 + (pts.map Prod.fst).sum,
         a.2.2 + pts.length) := by
  induction pts generalizing a with
  | nil => simp
  | cons p r ih =>
    rw [List.foldl_cons, ih]
    simp only [List.map_cons, List.sum_cons, List.length_cons, Prod.mk.injEq]
    refine ⟨by ring, by ring, by omega⟩

/-- C9: `calculate_centroid` returns exactly the arithmetic mean of every
vertex across all rings of a polygon or multipolygon — latitude is the
mean of the vertex latitudes, longitude the mean of the vertex
longitudes — and fails (raises, embedded as `none`) exactly on a
degenerate geometry containing no points. -/
theorem centroidAcc_eq (g : Geometry) :
    centroidAcc g = ((g.points.map Prod.snd).sum, (g.points.map Prod.fst).sum,
      g.points.length) := by
  unfold centroidAcc
  rw [foldl_foldl_join, foldl_foldl_join, centroid_acc_spec]
  simp [Geometry.points]

/-- C9: `calculate_centroid` returns exactly the arithmetic mean of every
vertex across all rings of a polygon or multipolygon — latitude is the
mean of the vertex latitudes, longitude the mean of the vertex
longitudes — and fails (raises, embedded as `none`) exactly on a
degenerate geometry containing no points. -/
theorem calculate_centroid_mean (g : Geometry) :
    calculate_centroid g =
      if g.points.length = 0 then none
      else some ((g.points.map Prod.snd).sum / (g.points.length : ℚ),
                 (g.points.map Prod.fst).sum / (g.points.length : ℚ)) := by
  unfold calculate_centroid
  rw [centroidAcc_eq]

theorem countOwned_cons (cur : Own) (f : Fips) (fs : List Fips) (t : TeamId) :
    countOwned cur (f :: fs) t =
      (if dictGet cur f = some t then 1 else 0) + countOwned cur fs t := by
  unfold countOwned
  rw [List.filter_cons]
  by_cases h : dictGet cur f = some t
  · simp [h, Nat.add_comm]
  · simp [h]

theorem ownerCountsStep_getD (cur : Own) (m : Dict ℕ) (f : Fips)
    (t : TeamId) (ht : t ≠ "") :
    (dictGet (ownerCountsStep cur m f) t).getD 0
      = (dictGet m t).getD 0 +
        (if dictGet cur f = some t then 1 else 0) := by
  unfold ownerCountsStep
  cases hf : dictGet cur f with
  | none => simp
  | some owner =>
    by_cases ho : owner = ""
    · subst ho
      have hcond : ¬ (some ("" : String) = some t) := by
        intro hc
        exact ht (Option.some.inj hc).symm
      simp [hcond]
    · cases hm : dictGet m owner with
      | some c =>
        by_cases hto : t = owner
        · subst hto
          simp [ho, hm, dictGet_dictSet_self]
        · have hoc : ¬ (some owner = some t) := by
            intro hc
            exact hto (Option.some.inj hc).symm
          simp [ho, hm, dictGet_dictSet_ne m (c + 1) hto, hoc]
      | none =>
        by_cases hto : t = owner
        · subst hto
          simp [ho, hm, dictGet_dictSet_self]
        · have hoc : ¬ (some owner = some t) := by
            intro hc
            exact hto (Option.some.inj hc).symm
          simp [ho, hm, dictGet_dictSet_ne m 1 hto, hoc]

theorem ownerCounts_foldl (cur : Own) (fl : List Fips) (m : Dict ℕ)
    (t : TeamId) (ht : t ≠ "") :
    (dictGet (fl.foldl (ownerCountsStep cur) m) t).getD 0
      = (dictGet m t).getD 0 + countOwned cur fl t := by
  induction fl generalizing m with
  | nil => simp [countOwned]
  | cons f fs ih =>
    rw [List.foldl_cons, ih (ownerCountsStep cur m f),
      ownerCountsStep_getD cur m f t ht, countOwned_cons]
    omega

/-- The tally stored for team `t` is the number of cluster regions it
currently owns. -/
theorem ownerCounts_getD (cur : Own) (fl : List Fips) (t : TeamId)
    (ht : t ≠ "") :
    (dictGet (ownerCounts cur fl) t).getD 0 = countOwned cur fl t := by
  unfold ownerCounts
  rw [ownerCounts_foldl cur fl [] t ht]
  simp [dictGet]

/-- Every key of `owner_counts` is a truthy team id. -/
theorem ownerCounts_keys_ne (cur : Own) (fl : List Fips) :
    ∀ p ∈ ownerCounts cur fl, p.1 ≠ "" := by
  unfold ownerCounts
  suffices h : ∀ (m : Dict ℕ), (∀ p ∈ m, p.1 ≠ "") →
      ∀ p ∈ fl.foldl (ownerCountsStep cur) m, p.1 ≠ "" by
    exact h [] (by simp)
  induction fl with
  | nil => exact fun m hm => hm
  | cons f fs ih =>
    intro m hm
    rw [List.foldl_cons]
    apply ih
    intro p hp
    unfold ownerCountsStep at hp
    cases hf : dictGet cur f with
    | none =>
      rw [hf] at hp
      exact hm p hp
    | some owner =>
      rw [hf] at hp
      by_cases ho : owner = ""
      · rw [ho] at hp
        simp only [ne_eq, not_true_eq_false, if_false] at hp
        exact hm p hp
      · simp only [ne_eq, ho, not_false_eq_true, if_true] at hp
        cases hm2 : dictGet m owner with
        | some c =>
          rw [hm2] at hp
          rcases mem_dictSet hp with h1 | h2
          · exact hm p h1
          · rw [h2]
            exact ho
        | none =>
          rw [hm2] at hp
          rcases mem_dictSet hp with h1 | h2
          · exact hm p h1
          · rw [h2]
            exact ho

/-- Keys of `owner_counts` are distinct (it is a dict). -/
theorem ownerCounts_nodup (cur : Own) (fl : List Fips) :
    (dictKeys (ownerCounts cur fl)).Nodup := by
  unfold ownerCounts
  suffices h : ∀ (m : Dict ℕ), (dictKeys m).Nodup →
      (dictKeys (fl.foldl (ownerCountsStep cur) m)).Nodup by
    exact h [] (by simp [dictKeys])
  induction fl with
  | nil => exact fun m hm => hm
  | cons f fs ih =>
    intro m hm
    rw [List.foldl_cons]
    apply ih
    unfold ownerCountsStep
    cases hf : dictGet cur f with
    | none => exact hm
    | some owner =>
      by_cases ho : owner = ""
      · simp [ho, hm]
      · cases hm2 : dictGet m owner with
        | some c => simp [ho, hm2, nodup_dictSet _ _ hm]
        | none => simp [ho, hm2, nodup_dictSet _ _ hm]

/-- `max(..., key=lambda x: x[1])` over a non-empty dict returns an entry
whose tally is maximal. -/
theorem maxByCount_spec (m : Dict ℕ) (hm : m ≠ []) :
    ∃ p, maxByCount m = some p ∧ p ∈ m ∧ ∀ q ∈ m, q.2 ≤ p.2 := by
  cases m with
  | nil => exact absurd rfl hm
  | cons x xs =>
    suffices h : ∀ (x : String × ℕ),
        (xs.foldl (fun b y => if y.2 > b.2 then y else b) x) ∈ x :: xs ∧
        x.2 ≤ (xs.foldl (fun b y => if y.2 > b.2 then y else b) x).2 ∧
        ∀ q ∈ xs, q.2 ≤ (xs.foldl (fun b y => if y.2 > b.2 then y else b) x).2 by
      obtain ⟨hmem, hx, hall⟩ := h x
      refine ⟨_, rfl, hmem, ?_⟩
      intro q hq
      rcases List.mem_cons.mp hq with rfl | hqs
      · exact hx
      · exact hall q hqs
    clear hm
    induction xs with
    | nil => exact fun x => ⟨List.mem_cons_self _ _, le_refl _, by simp⟩
    | cons y ys ih =>
      intro x
      rw [List.foldl_cons]
      by_cases hy : y.2 > x.2
      · obtain ⟨hmem, hx, hall⟩ := ih y
        rw [if_pos hy]
        refine ⟨List.mem_cons_of_mem _ hmem, ?_, ?_⟩
        · exact le_trans (le_of_lt hy) hx
        · intro q hq
          rcases List.mem_cons.mp hq with rfl | hqs
          · exact hx
          · exact hall q hqs
      · obtain ⟨hmem, hx, hall⟩ := ih x
        rw [if_neg hy]
        refine ⟨?_, hx, ?_⟩
        · rcases List.mem_cons.mp hmem with he | hmem2
          · exact List.mem_cons.mpr (Or.inl he)
          · exact List.mem_cons_of_mem _ (List.mem_cons_of_mem _ hmem2)
        · intro q hq
          rcases List.mem_cons.mp hq with rfl | hqs
          · exact le_trans (le_of_not_lt hy) hx
          · exact hall q hqs

/-- A region owned by nobody-with-a-truthy-id contributes to no team;
in particular the empty team id owns nothing when all owners are truthy. -/
theorem countOwned_empty_team (cur : Own) (fl : List Fips)
    (howners : OwnersNonempty cur) : countOwned cur fl "" = 0 := by
  unfold countOwned
  rw [List.length_eq_zero]
  rw [List.filter_eq_nil_iff]
  intro f _
  simp only [beq_iff_eq]
  intro hc
  exact howners _ (dictGet_mem hc) rfl

/-- The controller picked by `max` over `owner_counts` owns at least as
many of the cluster's regions as any team (given truthy owners). -/
theorem max_plurality (cur : Own) (fl : List Fips) (ctrl : String × ℕ)
    (howners : OwnersNonempty cur)
    (hmax : maxByCount (ownerCounts cur fl) = some ctrl) :
    ∀ t, countOwned cur fl t ≤ countOwned cur fl ctrl.1 := by
  have hne : ownerCounts cur fl ≠ [] := by
    intro hnil
    rw [hnil] at hmax
    simp [maxByCount] at hmax
  obtain ⟨p, hpr, hpmem, hpmax⟩ := maxByCount_spec _ hne
  rw [hmax] at hpr
  have hp : p = ctrl := (Option.some.inj hpr).symm
  subst hp
  have hc1 : p.1 ≠ "" := ownerCounts_keys_ne cur fl p hpmem
  have hcv : dictGet (ownerCounts cur fl) p.1 = some p.2 := by
    rw [dictGet_eq_some_iff (ownerCounts_nodup cur fl)]
    exact hpmem
  have hctrl_count : countOwned cur fl p.1 = p.2 := by
    rw [← ownerCounts_getD cur fl p.1 hc1, hcv]
    rfl
  intro t
  by_cases ht : t = ""
  · rw [ht, countOwned_empty_team cur fl howners]
    exact Nat.zero_le _
  · rw [hctrl_count, ← ownerCounts_getD cur fl t ht]
    cases hg : dictGet (ownerCounts cur fl) t with
    | none => simp
    | some cnum =>
      have hmem2 : (t, cnum) ∈ ownerCounts cur fl := dictGet_mem hg
      simpa using hpmax (t, cnum) hmem2

/-- Shape of one `logoStep` output: either nothing is appended, or the
appended logo copies the centroid's anchor and carries the `max` winner of
the cluster's owner tallies. -/
theorem logoStep_mem (tc : Dict (List Fips)) (tb : Dict TeamMeta) (cur : Own)
    (acc : List Logo) (c : Centroid) (lg : Logo)
    (h : lg ∈ logoStep tc tb cur acc c) :
    lg ∈ acc ∨
    (lg.baselineTeamId = c.teamId ∧ lg.latitude = c.latitude ∧
      lg.longitude = c.longitude ∧
      ∃ ctrl : String × ℕ, lg.currentOwnerId = ctrl.1 ∧
        maxByCount (ownerCounts cur ((dictGet tc c.teamId).getD []))
          = some ctrl) := by
  simp only [logoStep] at h
  by_cases hbc : (dictGet tc c.teamId).getD [] = []
  · simp only [hbc, if_pos rfl] at h
    exact Or.inl h
  · simp only [if_neg hbc] at h
    cases hmax : maxByCount (ownerCounts cur ((dictGet tc c.teamId).getD []))
      with
    | none =>
      simp only [hmax] at h
      exact Or.inl h
    | some ctrl =>
      simp only [hmax] at h
      rcases List.mem_append.mp h with h1 | h2
      · exact Or.inl h1
      · obtain rfl := List.mem_singleton.mp h2
        exact Or.inr ⟨rfl, rfl, rfl, ctrl, rfl, rfl⟩

/-- C6: every logo marker produced by `calculate_territory_logos` sits at
the fixed baseline anchor of the cluster that produced it — its
latitude/longitude are copied from the baseline centroid record,
independent of the live ownership — and its resolved controller currently
owns at least as many regions of the cluster's original (week-0)
membership as any other team under the live snapshot: a simple plurality,
with no percentage threshold. -/
theorem territory_logo_plurality (baseline cur : Own) (teams : List TeamMeta)
    (cents : List Centroid) (howners : OwnersNonempty cur) :
    ∀ lg ∈ calculate_territory_logos baseline cur teams cents,
      (∃ cent ∈ cents, cent.teamId = lg.baselineTeamId ∧
        lg.latitude = cent.latitude ∧ lg.longitude = cent.longitude) ∧
      ∀ t : TeamId,
        countOwned cur ((dictGet (territoryCounties baseline)
            lg.baselineTeamId).getD []) t
          ≤ countOwned cur ((dictGet (territoryCounties baseline)
              lg.baselineTeamId).getD []) lg.currentOwnerId := by
  unfold calculate_territory_logos
  suffices h : ∀ (cs : List Centroid), (∀ c ∈ cs, c ∈ cents) →
      ∀ (acc : List Logo),
      (∀ lg ∈ acc,
        (∃ cent ∈ cents, cent.teamId = lg.baselineTeamId ∧
          lg.latitude = cent.latitude ∧ lg.longitude = cent.longitude) ∧
        ∀ t : TeamId,
          countOwned cur ((dictGet (territoryCounties baseline)
              lg.baselineTeamId).getD []) t
            ≤ countOwned cur ((dictGet (territoryCounties baseline)
                lg.baselineTeamId).getD []) lg.currentOwnerId) →
      ∀ lg ∈ cs.foldl (logoStep (territoryCounties baseline)
          (teamsById teams) cur) acc,
        (∃ cent ∈ cents, cent.teamId = lg.baselineTeamId ∧
          lg.latitude = cent.latitude ∧ lg.longitude = cent.longitude) ∧
        ∀ t : TeamId,
          countOwned cur ((dictGet (territoryCounties baseline)
              lg.baselineTeamId).getD []) t
            ≤ countOwned cur ((dictGet (territoryCounties baseline)
                lg.baselineTeamId).getD []) lg.currentOwnerId by
    exact h cents (fun c hc => hc) [] (by simp)
  intro cs
  induction cs with
  | nil =>
    intro _ acc hacc lg hm
    exact hacc lg hm
  | cons c cs2 ih =>
    intro hsub acc hacc
    rw [List.foldl_cons]
    apply ih (fun x hx => hsub x (List.mem_cons_of_mem _ hx))
    intro lg hm
    rcases logoStep_mem _ _ _ _ _ _ hm with hold
      | ⟨hbid, hlat, hlon, ctrl, hcown, hmax⟩
    · exact hacc lg hold
    · constructor
      · exact ⟨c, hsub c (List.mem_cons_self _ _), hbid.symm, hlat, hlon⟩
      · intro t
        rw [hbid, hcown]
        exact max_plurality cur _ ctrl howners hmax t

theorem territory_logo_plurality_witness :
    (∃ cent ∈ c6cents, cent.teamId = c6logo.baselineTeamId ∧
      c6logo.latitude = cent.latitude ∧ c6logo.longitude = cent.longitude) ∧
    countOwned c6cur ((dictGet (territoryCounties c6baseline)
        c6logo.baselineTeamId).getD []) "A"
      ≤ countOwned c6cur ((dictGet (territoryCounties c6baseline)
          c6logo.baselineTeamId).getD []) c6logo.currentOwnerId :=
  ⟨(territory_logo_plurality c6baseline c6cur c6teams c6cents (by decide)
      c6logo (by decide)).1,
   (territory_logo_plurality c6baseline c6cur c6teams c6cents (by decide)
      c6logo (by decide)).2 "A"⟩

theorem keyGE_total (x y : ℚ × ℚ × ℚ) : keyGE x y ∨ keyGE y x := by
  unfold keyGE
  rcases lt_trichotomy x.1 y.1 with h | h | h
  · right; exact Or.inl h
  · rcases lt_trichotomy x.2.1 y.2.1 with h2 | h2 | h2
    · right; exact Or.inr ⟨h, Or.inl h2⟩
    · rcases le_total x.2.2 y.2.2 with h3 | h3
      · right; exact Or.inr ⟨h, Or.inr ⟨h2, h3⟩⟩
      · left; exact Or.inr ⟨h.symm, Or.inr ⟨h2.symm, h3⟩⟩
    · left; exact Or.inr ⟨h.symm, Or.inl h2⟩
  · left; exact Or.inl h

theorem keyGE_trans (x y z : ℚ × ℚ × ℚ) (h1 : keyGE x y) (h2 : keyGE y z) :
    keyGE x z := by
  unfold keyGE at h1 h2 ⊢
  rcases h1 with ha | ⟨ha, hb⟩
  · rcases h2 with hc | ⟨hc, _⟩
    · exact Or.inl (lt_trans hc ha)
    · exact Or.inl (lt_of_eq_of_lt hc ha)
  · rcases h2 with hc | ⟨hc, hd⟩
    · exact Or.inl (lt_of_lt_of_eq hc ha)
    · refine Or.inr ⟨hc.trans ha, ?_⟩
      rcases hb with hb1 | ⟨hb1, hb2⟩
      · rcases hd with hd1 | ⟨hd1, _⟩
        · exact Or.inl (lt_trans hd1 hb1)
        · exact Or.inl (lt_of_eq_of_lt hd1 hb1)
      · rcases hd with hd1 | ⟨hd1, hd2⟩
        · exact Or.inl (lt_of_lt_of_eq hd1 hb1)
        · exact Or.inr ⟨hd1.trans hb1, le_trans hd2 hb2⟩

/-- Sortedness, positivity and permutation content of the shared
sort-then-filter board body. -/
theorem board_spec (l : List Entry) (metric : String) :
    ((l.mergeSort (fun a b =>
        decide (keyGE (sortKey metric a) (sortKey metric b)))).filter
      (fun e => metricVal e.metrics metric > 0)).Pairwise
      (fun a b => keyGE (sortKey metric a) (sortKey metric b)) ∧
    (∀ e ∈ (l.mergeSort (fun a b =>
        decide (keyGE (sortKey metric a) (sortKey metric b)))).filter
      (fun e => metricVal e.metrics metric > 0),
      0 < metricVal e.metrics metric) ∧
    ((l.mergeSort (fun a b =>
        decide (keyGE (sortKey metric a) (sortKey metric b)))).filter
      (fun e => metricVal e.metrics metric > 0)).Perm
      (l.filter (fun e => metricVal e.metrics metric > 0)) := by
  refine ⟨?_, ?_, ?_⟩
  · have hs := @List.sorted_mergeSort Entry
      (fun a b => decide (keyGE (sortKey metric a) (sortKey metric b)))
      (fun a b c hab hbc => by
        simp only [decide_eq_true_eq] at hab hbc ⊢
        exact keyGE_trans _ _ _ hab hbc)
      (fun a b => by
        rcases keyGE_total (sortKey metric a) (sortKey metric b) with h | h
        · simp [h]
        · simp [h])
      l
    have hs2 := List.Pairwise.sublist
      (List.filter_sublist
        (p := fun e => metricVal e.metrics metric > 0) _) hs
    exact hs2.imp (fun hab => by simpa using hab)
  · intro e he
    have := (List.mem_filter.mp he).2
    simpa using this
  · exact (List.mergeSort_perm l _).filter _

theorem dictSetIn_not_mem {α : Type} {m : Dict α} {k : String} (v : α)
    (h : dictMem m k = false) : dictSetIn m k v = m := by
  induction m with
  | nil => rfl
  | cons p rest ih =>
    simp only [dictMem, Bool.or_eq_false_iff] at h
    have hp : ¬ p.1 = k := of_decide_eq_false h.1
    simp [dictSetIn, hp, ih h.2]

theorem sumCounties_cons (p : String × RawMetrics) (rest : Dict RawMetrics) :
    sumCounties (p :: rest) = p.2.counties + sumCounties rest := by
  simp [sumCounties]

theorem sumCounties_dictSetIn_some (v : RawMetrics) :
    ∀ (m : Dict RawMetrics) (k : String) (r : RawMetrics),
      (dictKeys m).Nodup → dictGet m k = some r →
      sumCounties (dictSetIn m k v) + r.counties
        = sumCounties m + v.counties := by
  intro m
  induction m with
  | nil =>
    intro k r _ hget
    simp [dictGet] at hget
  | cons p rest ih =>
    intro k r hnd hget
    have hnd2 : (p.1 :: dictKeys rest).Nodup := hnd
    have hcons := List.nodup_cons.mp hnd2
    by_cases hp : p.1 = k
    · subst hp
      have hr : p.2 = r := by simpa [dictGet] using hget
      have hnm : dictMem rest p.1 = false := by
        cases hb : dictMem rest p.1 with
        | false => rfl
        | true => exact absurd ((dictMem_iff _ _).mp hb) hcons.1
      simp only [dictSetIn]
      rw [if_true, dictSetIn_not_mem v hnm, sumCounties_cons,
        sumCounties_cons, ← hr]
      dsimp only
      omega
    · have hget2 : dictGet rest k = some r := by
        simpa [dictGet, hp] using hget
      simp only [dictSetIn, hp, if_false]
      rw [sumCounties_cons, sumCounties_cons]
      have := ih k r hcons.2 hget2
      omega

theorem sumCounties_dictSet_some {m : Dict RawMetrics} {k : String}
    (v : RawMetrics) {r : RawMetrics} (hnd : (dictKeys m).Nodup)
    (hget : dictGet m k = some r) :
    sumCounties (dictSet m k v) + r.counties
      = sumCounties m + v.counties := by
  have hmem : dictMem m k = true := by
    rw [dictMem_iff]
    exact List.mem_map.mpr ⟨(k, r), dictGet_mem hget, rfl⟩
  rw [dictSet, if_pos hmem]
  exact sumCounties_dictSetIn_some v m k r hnd hget

theorem sumCounties_dictSet_none {m : Dict RawMetrics} {k : String}
    (v : RawMetrics) (hget : dictGet m k = none) :
    sumCounties (dictSet m k v) = sumCounties m + v.counties := by
  have hnm : dictMem m k = false := by
    cases hb : dictMem m k with
    | false => rfl
    | true =>
      obtain ⟨w, hw⟩ := dictGet_isSome_of_mem ((dictMem_iff _ _).mp hb)
      rw [hget] at hw
      simp at hw
  rw [dictSet, if_neg (by simp [hnm])]
  simp [sumCounties]

theorem sumCounties_bump (m : Dict RawMetrics) (team : String)
    (pop area : ℚ) (hnd : (dictKeys m).Nodup) :
    sumCounties (bumpMetrics m team pop area) = sumCounties m + 1 ∧
    (dictKeys (bumpMetrics m team pop area)).Nodup := by
  constructor
  · unfold bumpMetrics
    cases hget : dictGet m team with
    | none =>
      simp only [hget, Option.getD_none]
      rw [sumCounties_dictSet_none _ hget]
      simp [zeroMetrics]
    | some r =>
      simp only [hget, Option.getD_some]
      have h := sumCounties_dictSet_some
        (m := m) (k := team)
        { counties := r.counties + 1, population := r.population + pop,
          areaSqMi := r.areaSqMi + area } hnd hget
      dsimp only at h
      omega
  · exact nodup_dictSet _ _ hnd

theorem deltaStepCounty_inv (cs : CountyStats) (w l : String)
    (acc : Dict RawMetrics × Dict RawMetrics) (f : Fips)
    (h : DeltaInv acc) : DeltaInv (deltaStepCounty cs w l acc f) := by
  obtain ⟨h1, h2, h3⟩ := h
  obtain ⟨hs1, hn1⟩ := sumCounties_bump acc.1 w
    (normaliseNumber ((dictGet cs f).getD {}).population)
    (normaliseNumber ((dictGet cs f).getD {}).areaSqMi) h1
  obtain ⟨hs2, hn2⟩ := sumCounties_bump acc.2 l
    (normaliseNumber ((dictGet cs f).getD {}).population)
    (normaliseNumber ((dictGet cs f).getD {}).areaSqMi) h2
  refine ⟨hn1, hn2, ?_⟩
  show sumCounties (bumpMetrics acc.1 w
      (normaliseNumber ((dictGet cs f).getD {}).population)
      (normaliseNumber ((dictGet cs f).getD {}).areaSqMi))
    = sumCounties (bumpMetrics acc.2 l
      (normaliseNumber ((dictGet cs f).getD {}).population)
      (normaliseNumber ((dictGet cs f).getD {}).areaSqMi))
  rw [hs1, hs2, h3]

theorem deltaStep_inv (cs : CountyStats)
    (acc : Dict RawMetrics × Dict RawMetrics) (t : LedgerRecord)
    (h : DeltaInv acc) : DeltaInv (deltaStep cs acc t) := by
  unfold deltaStep
  by_cases hskip : t.fips = [] ∨ t.winnerId = "" ∨ t.loserId = ""
  · rw [if_pos hskip]
    exact h
  · rw [if_neg hskip]
    have : ∀ (fl : List Fips) (acc2 : Dict RawMetrics × Dict RawMetrics),
        DeltaInv acc2 →
        DeltaInv (fl.foldl (deltaStepCounty cs t.winnerId t.loserId) acc2) := by
      intro fl
      induction fl with
      | nil => exact fun acc2 h2 => h2
      | cons f fs ih =>
        intro acc2 h2
        rw [List.foldl_cons]
        exact ih _ (deltaStepCounty_inv cs _ _ acc2 f h2)
    exact this t.fips acc h

/-- `_collect_transfer_deltas` produces proper dicts whose total gained
counties equal the total lost counties. -/
theorem collect_transfer_deltas_balance (transfers : List LedgerRecord)
    (county_stats : CountyStats) :
    DeltaInv (collect_transfer_deltas transfers county_stats) := by
  unfold collect_transfer_deltas
  have : ∀ (ts : List LedgerRecord)
      (acc : Dict RawMetrics × Dict RawMetrics), DeltaInv acc →
      DeltaInv (ts.foldl (deltaStep county_stats) acc) := by
    intro ts
    induction ts with
    | nil => exact fun acc h => h
    | cons t ts2 ih =>
      intro acc h
      rw [List.foldl_cons]
      exact ih _ (deltaStep_inv county_stats acc t h)
  exact this transfers ([], []) ⟨by simp [dictKeys], by simp [dictKeys], rfl⟩

theorem build_entries_foldl (team_lookup : Dict LbTeam)
    (raw : Dict RawMetrics) :
    ∀ (acc : Dict Entry), (∀ p ∈ raw, p.1 ∉ dictKeys acc) →
    (dictKeys raw).Nodup →
    raw.foldl (fun entries p => dictSet entries p.1 (mkEntry team_lookup p))
        acc
      = acc ++ raw.map (fun p => (p.1, mkEntry team_lookup p)) := by
  induction raw with
  | nil => intro acc _ _; simp
  | cons p rest ih =>
    intro acc hdisj hnd
    have hnd2 : (p.1 :: dictKeys rest).Nodup := hnd
    have hcons := List.nodup_cons.mp hnd2
    have hmem : dictMem acc p.1 = false := by
      cases hb : dictMem acc p.1 with
      | false => rfl
      | true =>
        exact absurd ((dictMem_iff _ _).mp hb)
          (hdisj p (List.mem_cons_self _ _))
    rw [List.foldl_cons]
    have hacc1 : dictSet acc p.1 (mkEntry team_lookup p)
        = acc ++ [(p.1, mkEntry team_lookup p)] := by
      rw [dictSet, if_neg (by simp [hmem])]
    rw [hacc1, ih (acc ++ [(p.1, mkEntry team_lookup p)]) ?hdisj hcons.2]
    · simp
    · intro q hq
      rw [dictKeys, List.map_append]
      intro hin
      rcases List.mem_append.mp hin with h1 | h2
      · exact hdisj q (List.mem_cons_of_mem _ hq) h1
      · have : q.1 = p.1 := by simpa [dictKeys] using h2
        exact hcons.1 (this ▸ List.mem_map.mpr ⟨q, hq, rfl⟩)

theorem build_entries_eq (raw : Dict RawMetrics) (team_lookup : Dict LbTeam)
    (hnd : (dictKeys raw).Nodup) :
    build_entries raw team_lookup
      = raw.map (fun p => (p.1, mkEntry team_lookup p)) := by
  unfold build_entries
  simpa using build_entries_foldl team_lookup raw [] (by simp [dictKeys]) hnd

theorem sum_counties_filter_pos (l : List Entry) :
    ((l.filter (fun e => metricVal e.metrics "counties" > 0)).map
      (fun e => e.metrics.counties)).sum
    = (l.map (fun e => e.metrics.counties)).sum := by
  induction l with
  | nil => rfl
  | cons e es ih =>
    rw [List.filter_cons]
    by_cases h : metricVal e.metrics "counties" > 0
    · have hb : decide (metricVal e.metrics "counties" > 0) = true :=
        decide_eq_true h
      rw [if_pos hb, List.map_cons, List.sum_cons, List.map_cons,
        List.sum_cons, ih]
    · have hb : decide (metricVal e.metrics "counties" > 0) = false :=
        decide_eq_false h
      rw [if_neg (by simp [hb]), List.map_cons, List.sum_cons, ih]
      have hc : e.metrics.counties = 0 := by
        by_contra hc
        apply h
        have hpos : 0 < e.metrics.counties := Nat.pos_of_ne_zero hc
        have hmv : metricVal e.metrics "counties"
            = (e.metrics.counties : ℚ) := rfl
        rw [hmv]
        exact_mod_cast hpos
      omega

/-- C7: for every week's ledger, summing the regions-gained metric across
all teams on the gained board equals summing the regions-lost metric
across all teams on the lost board — both boards are computed strictly
from the same ledger records (gained grouped by winner, lost grouped by
loser), and every region bump increments one gained slot and one lost
slot together. -/
theorem gained_lost_closure (transfers : List LedgerRecord)
    (county_stats : CountyStats) (team_lookup : Dict LbTeam) :
    ((sorted_board_from_raw
        (collect_transfer_deltas transfers county_stats).1 team_lookup
        "counties").map (fun e => e.metrics.counties)).sum
      = ((sorted_board_from_raw
          (collect_transfer_deltas transfers county_stats).2 team_lookup
          "counties").map (fun e => e.metrics.counties)).sum := by
  obtain ⟨hnd1, hnd2, hbal⟩ :=
    collect_transfer_deltas_balance transfers county_stats
  have key : ∀ (raw : Dict RawMetrics), (dictKeys raw).Nodup →
      ((sorted_board_from_raw raw team_lookup "counties").map
        (fun e => e.metrics.counties)).sum = sumCounties raw := by
    intro raw hnd
    have hperm : (sorted_board_from_raw raw team_lookup "counties").Perm
        (((build_entries raw team_lookup).map Prod.snd).filter
          (fun e => metricVal e.metrics "counties" > 0)) :=
      (List.mergeSort_perm ((build_entries raw team_lookup).map Prod.snd)
        _).filter _
    rw [(hperm.map (fun e => e.metrics.counties)).sum_eq,
      sum_counties_filter_pos, build_entries_eq raw team_lookup hnd,
      List.map_map, List.map_map]
    rfl
  rw [key _ hnd1, key _ hnd2, hbal]

/-- C8: every leaderboard — the snapshot boards from `_sorted_board` and
the ledger boards from `_sorted_board_from_raw` alike — is sorted in
descending lexicographic order of (primary metric, population, region
count), a deterministic function of the entries, and consists exactly of
the entries whose primary metric is positive: every team whose primary
metric is zero is excluded from that board. -/
theorem leaderboards_sorted_and_filtered (entries : Dict Entry)
    (raw : Dict RawMetrics) (team_lookup : Dict LbTeam) (metric : String) :
    ((sorted_board entries metric).Pairwise
        (fun a b => keyGE (sortKey metric a) (sortKey metric b)) ∧
     (∀ e ∈ sorted_board entries metric, 0 < metricVal e.metrics metric) ∧
     (sorted_board entries metric).Perm
        ((entries.map Prod.snd).filter
          (fun e => metricVal e.metrics metric > 0))) ∧
    ((sorted_board_from_raw raw team_lookup metric).Pairwise
        (fun a b => keyGE (sortKey metric a) (sortKey metric b)) ∧
     (∀ e ∈ sorted_board_from_raw raw team_lookup metric,
        0 < metricVal e.metrics metric) ∧
     (sorted_board_from_raw raw team_lookup metric).Perm
        (((build_entries raw team_lookup).map Prod.snd).filter
          (fun e => metricVal e.metrics metric > 0))) := by
  obtain ⟨ha1, ha2, ha3⟩ := board_spec (entries.map Prod.snd) metric
  obtain ⟨hb1, hb2, hb3⟩ :=
    board_spec ((build_entries raw team_lookup).map Prod.snd) metric
  exact ⟨⟨ha1, ha2, ha3⟩, ⟨hb1, hb2, hb3⟩⟩

end ImperialMap
